import Mathlib

/-!
# Verification of the blog client logic (listing, detail, intro loader, storage)

Shallow embedding of the repository's JavaScript source:
* `utils.js` — `escapeHtml`, `storage` (localStorage + JSON round trip), `fetchJSON`
* the blog file — `BlogSystem` (load / sort / filter / paginate / render) and
  `SinglePostLoader` (detail view, navigation, meta tags)
* `welcome.js` — `StarfieldLoader` and `WelcomeAnimation` skip/complete machinery

DOM writes are modelled as explicit state: the card container is a list of
nodes, document metadata is a record, and the timer driven animation
sequences are step functions over explicit event lists.
-/

/-! ## utils.js: escapeHtml

`escapeHtml` routes text through `div.textContent` / `div.innerHTML`, which is
the HTML text-serialisation: `&`, `<`, `>` and U+00A0 become entities, all other
characters pass through. -/

def escTextChar (c : Char) : List Char :=
  if c = '&' then ("&amp;").data
  else if c = '<' then ("&lt;").data
  else if c = '>' then ("&gt;").data
  else if c = ' ' then ("&nbsp;").data
  else [c]

def escapeHtml (s : String) : String :=
  ⟨(s.data.map escTextChar).flatten⟩

/-! ## Slug derivation used by `BlogSystem.setFilter`:
`label.toLowerCase().replace(/\s+/g, '-')`.

`jsWhitespaceChar` models the character class `\s`; `jsToLower` models the
locale-independent simple lowercase mapping at the character level. -/

def jsWhitespaceChar (c : Char) : Bool :=
  c = ' ' || c = '\t' || c = '\n' || c = '\x0b' || c = '\x0c' || c = '\r' ||
  c = ' ' || c = ' ' || (' ' ≤ c && c ≤ ' ') ||
  c = ' ' || c = ' ' || c = ' ' || c = ' ' ||
  c = '　' || c = '﻿'

def jsToLower (c : Char) : Char := c.toLower

/-- `.replace(/\s+/g, '-')`: every maximal run of whitespace becomes one `-`.
The flag records whether the previous character belonged to a run already
replaced. -/
def collapseWsAux : Bool → List Char → List Char
  | _, [] => []
  | inRun, c :: cs =>
    if jsWhitespaceChar c then
      if inRun then collapseWsAux true cs else '-' :: collapseWsAux true cs
    else c :: collapseWsAux false cs

def collapseWs (l : List Char) : List Char := collapseWsAux false l

def slugify (s : String) : String :=
  ⟨collapseWs (s.data.map jsToLower)⟩

/-! ## Data model

A post record from `data/posts.json`.  `date` holds the parsed timestamp
`Date.parse(post.date)` of the (parseable) date string — the program only ever
uses the date through `new Date(...)` subtraction, i.e. through this number. -/

structure Post where
  id : String
  title : String
  excerpt : String
  content : Option String
  author : String
  category : String
  tags : List String
  date : Int
  image : Option String
  readTime : Option String
deriving DecidableEq

/-- The fetched JSON document; `posts` is `none` when the document lacks a
`posts` field (the `data && data.posts` check). -/
structure PostsDoc where
  posts : Option (List Post)
deriving DecidableEq

/-- Result of `utils.fetchJSON`: it catches every network/HTTP/parse error
internally and returns `null`, so callers only ever see a document or `none`. -/
abbrev FetchResult := Option PostsDoc

/-! ## Sorting: `data.posts.sort((a, b) => new Date(b.date) - new Date(a.date))`

`Array.prototype.sort` is specified to be stable; with this consistent
comparator the result is the unique stable descending-by-date permutation,
which we model by insertion sort on the relation `b.date ≤ a.date`. -/

def postDateDesc (a b : Post) : Prop := b.date ≤ a.date

instance : DecidableRel postDateDesc := fun a b =>
  inferInstanceAs (Decidable (b.date ≤ a.date))

instance : IsTotal Post postDateDesc := ⟨fun a b => le_total b.date a.date⟩

instance : IsTrans Post postDateDesc := ⟨fun _ _ _ h1 h2 => le_trans h2 h1⟩

def sortPosts (l : List Post) : List Post := l.insertionSort postDateDesc

/-! ## BlogSystem state

The card container's children are modelled as a node list; `loadMoreVisible`
models the `display` style of the `#load-more` container. -/

inductive BlogNode where
  | card (p : Post)
  | loadingMsg
  | emptyMsg
  | errorRetryMsg (msg : String)
deriving DecidableEq

structure BlogConfig where
  postsPerPage : Nat
  isPreview : Bool
  previewCount : Nat
deriving DecidableEq

/-- `new BlogSystem()` on the listing page: `postsPerPage: 9, isPreview: false`. -/
def defaultConfig : BlogConfig := ⟨9, false, 3⟩

/-- `new BlogSystem({ isPreview: true, previewCount: 3 })` on the home page. -/
def previewConfig : BlogConfig := ⟨9, true, 3⟩

structure Blog where
  posts : List Post
  filteredPosts : List Post
  currentFilter : String
  currentPage : Nat
  container : List BlogNode
  loadMoreVisible : Bool
deriving DecidableEq

/-- Constructor state: empty post lists, filter `all`, page 1; the container's
initial children and the load-more control's initial visibility come from the
page's HTML. -/
def Blog.initial (c0 : List BlogNode) (v0 : Bool) : Blog :=
  ⟨[], [], "all", 1, c0, v0⟩

namespace BlogSystem

def showLoading (b : Blog) : Blog := { b with container := [BlogNode.loadingMsg] }

def showEmpty (b : Blog) : Blog := { b with container := [BlogNode.emptyMsg] }

def showError (b : Blog) (msg : String) : Blog :=
  { b with container := [BlogNode.errorRetryMsg msg] }

/-- `loadPosts`: `fetchJSON` never throws (it returns `null` on failure), so the
`catch` branch with `showError` is unreachable; on `null` or a missing `posts`
field the state is left as constructed. -/
def loadPosts (b : Blog) (fr : FetchResult) : Blog :=
  match fr with
  | some data =>
    match data.posts with
    | some ps => { b with posts := sortPosts ps, filteredPosts := sortPosts ps }
    | none => b
  | none => b

/-- `updateLoadMoreButton(currentEndIndex)`. -/
def updateLoadMoreButton (cfg : BlogConfig) (b : Blog) (currentEndIndex : Nat) : Blog :=
  if cfg.isPreview then b
  else { b with loadMoreVisible := decide (currentEndIndex < b.filteredPosts.length) }

/-- `render(append)`: slice `[0, endIndex)` of the filtered list; on an empty
slice replace the container with the empty state and return (skipping the
load-more update); otherwise append one card per post, skipping the indices
`< (currentPage - 1) * postsPerPage` that are already rendered when appending. -/
def render (cfg : BlogConfig) (b : Blog) (append : Bool) : Blog :=
  let endIndex := if cfg.isPreview then cfg.previewCount else b.currentPage * cfg.postsPerPage
  let postsToShow := b.filteredPosts.take endIndex
  let b1 := if append then b else { b with container := [] }
  if postsToShow.isEmpty then showEmpty b1
  else
    let newCards := postsToShow.enum.filterMap fun ip =>
      if append && decide (ip.1 < (b.currentPage - 1) * cfg.postsPerPage) then none
      else some (BlogNode.card ip.2)
    updateLoadMoreButton cfg { b1 with container := b1.container ++ newCards } endIndex

/-- Whether a post matches a filter slug (`setFilter`'s predicate). -/
def postMatchesFilter (filter : String) (post : Post) : Bool :=
  slugify post.category == filter || post.tags.any fun tag => slugify tag == filter

/-- `setFilter(filter)`. -/
def setFilter (cfg : BlogConfig) (b : Blog) (filter : String) : Blog :=
  let b1 := { b with
    currentFilter := filter
    currentPage := 1
    filteredPosts :=
      if filter = "all" then b.posts
      else b.posts.filter (postMatchesFilter filter) }
  render cfg b1 false

/-- The `#load-more` click handler: `this.currentPage++; this.render(true)`. -/
def loadMore (cfg : BlogConfig) (b : Blog) : Blog :=
  render cfg { b with currentPage := b.currentPage + 1 } true

/-- `init()` (DOM-relevant part): `showLoading`, `loadPosts`, initial `render`. -/
def initModel (cfg : BlogConfig) (fr : FetchResult) (b : Blog) : Blog :=
  render cfg (loadPosts (showLoading b) fr) false

/-- State after the initial render and `n` load-more activations. -/
def afterLoadMore (cfg : BlogConfig) (b : Blog) : Nat → Blog
  | 0 => render cfg b false
  | n + 1 => loadMore cfg (afterLoadMore cfg b n)

end BlogSystem

/-- The posts rendered as cards in a container, in order. -/
def cardsOf (c : List BlogNode) : List Post :=
  c.filterMap fun n => match n with | BlogNode.card p => some p | _ => none

/-! ## SinglePostLoader state

The `#post-content` region, the document metadata (title, description, Open
Graph tags) and the two chronological navigation links. -/

inductive SPNode where
  | loadingMsg
  | errorBackMsg (msg : String)
  | contentHtml (html : String)
deriving DecidableEq

structure MetaState where
  title : String
  metaDescription : String
  ogTitle : String
  ogDescription : String
  ogImage : String
deriving DecidableEq

structure SPState where
  container : List SPNode
  meta : MetaState
  navPrev : Option Post
  navNext : Option Post
deriving DecidableEq

/-- JavaScript string truthiness of a nullable string (`if (!postId)`,
`if (skipData)`): `null` and the empty string are falsy. -/
def jsStrTruthy (o : Option String) : Bool :=
  match o with
  | some s => decide (s ≠ "")
  | none => false

/-- JavaScript `array[i]` for a possibly negative index. -/
def jsIndex (l : List Post) (i : Int) : Option Post :=
  if i < 0 then none else l.get? i.toNat

namespace SinglePostLoader

def showLoading (s : SPState) : SPState := { s with container := [SPNode.loadingMsg] }

/-- The detail view's error state: message plus the link back to the listing. -/
def showError (s : SPState) (msg : String) : SPState :=
  { s with container := [SPNode.errorBackMsg msg] }

/-- `loadPost(id)`: fetch the document and `find` the post whose `id`,
compared as text, equals the query identifier; `null` on failure. -/
def loadPost (fr : FetchResult) (id : String) : Option Post :=
  match fr with
  | some data =>
    match data.posts with
    | some ps => ps.find? fun post => post.id == id
    | none => none
  | none => none

/-- `setupNavigation(currentPost)`: refetch, re-sort descending, locate the
current post (`findIndex`, `-1` when absent) and take the element after it as
previous (next-older) and the element before it as next (next-newer); on fetch
failure or a missing `posts` field the links are left untouched. -/
def setupNavigation (fr : FetchResult) (current : Post)
    (nav : Option Post × Option Post) : Option Post × Option Post :=
  match fr with
  | some data =>
    match data.posts with
    | some ps =>
      let posts := sortPosts ps
      let currentIndex : Int :=
        match posts.findIdx? (fun p => p.id == current.id) with
        | some n => (n : Int)
        | none => -1
      (jsIndex posts (currentIndex + 1), jsIndex posts (currentIndex - 1))
    | none => nav
  | none => nav

/-- `render(post)` (the parts the claims observe): sets the document title,
fills the content region (`content` unescaped, else the escaped excerpt), and
wires the navigation links. -/
def render (s : SPState) (navFr : FetchResult) (post : Post) : SPState :=
  let nav := setupNavigation navFr post (s.navPrev, s.navNext)
  { s with
    meta := { s.meta with title := post.title ++ " | Leonic\x27s World" }
    container := [SPNode.contentHtml
      (match post.content with
        | some c => c
        | none => "<p>" ++ escapeHtml post.excerpt ++ "</p>")]
    navPrev := nav.1
    navNext := nav.2 }

/-- `updateMetaTags(post)`. -/
def updateMetaTags (m : MetaState) (post : Post) : MetaState :=
  { m with
    metaDescription := post.excerpt
    ogTitle := post.title
    ogDescription := post.excerpt
    ogImage := match post.image with | some img => img | none => m.ogImage }

/-- `init()`: a missing or empty `id` parameter and a failed lookup both show
the error state; only a found post is rendered and has its metadata applied. -/
def init (idParam : Option String) (fr navFr : FetchResult) (s0 : SPState) : SPState :=
  if jsStrTruthy idParam = false then showError s0 ("Kein Beitrag angegeben.")
  else
    let s1 := showLoading s0
    match loadPost fr (idParam.getD "") with
    | some post =>
      let s2 := render s1 navFr post
      { s2 with meta := updateMetaTags s2.meta post }
    | none => showError s1 ("Beitrag nicht gefunden.")

end SinglePostLoader

/-! ## Card markup (`createPostCard`)

The template-literal HTML is modelled as string concatenation.  `formatDate`
stands for `utils.formatDate`'s locale rendering of the numeric date — its
exact text is independent of every post text field, which is all the escaping
claims need. -/

def formatDate (d : Int) : String := toString d

/-- `${post.readTime || '5 min'}`. -/
def readTimeOrDefault (rt : Option String) : String :=
  match rt with
  | some s => if s = "" then "5 min" else s
  | none => "5 min"

/-- JavaScript `string.charAt(0)`. -/
def charAt0 (s : String) : String :=
  match s.data with
  | [] => ""
  | c :: _ => ⟨[c]⟩

namespace BlogSystem

/-- The `imageHtml` template of `createPostCard`: an `<img>` whose alt text is
the escaped title, or the placeholder `<span>` holding the category's first
character — interpolated raw, without `utils.escapeHtml`. -/
def imageHtml (post : Post) : String :=
  match post.image with
  | some img =>
    "<img src=\"" ++ img ++ "\" alt=\"" ++ escapeHtml post.title ++ "\" loading=\"lazy\">"
  | none =>
    "<div class=\"image-placeholder\">\n           <span>" ++ charAt0 post.category
      ++ "</span>\n         </div>"

/-- The card body assigned to `article.innerHTML`. -/
def cardInnerHtml (post : Post) : String :=
  "\n      <a href=\"blog-post.html?id=" ++ post.id ++ "\" class=\"blog-image\">\n        "
  ++ imageHtml post
  ++ "\n      </a>\n      <div class=\"blog-content\">\n        <div class=\"blog-meta\">\n          <span class=\"blog-category\">"
  ++ escapeHtml post.category
  ++ "</span>\n          <span class=\"blog-date\">" ++ formatDate post.date
  ++ "</span>\n          <span class=\"blog-read-time\">" ++ readTimeOrDefault post.readTime
  ++ "</span>\n        </div>\n        <h3 class=\"blog-title\">\n          <a href=\"blog-post.html?id=" ++ post.id ++ "\">"
  ++ escapeHtml post.title
  ++ "</a>\n        </h3>\n        <p class=\"blog-excerpt\">" ++ escapeHtml post.excerpt
  ++ "</p>\n        <div class=\"tags\">\n          "
  ++ ((post.tags.map fun tag => "<span class=\"tag\">" ++ escapeHtml tag ++ "</span>").foldr (· ++ ·) "")
  ++ "\n        </div>\n      </div>\n    "

end BlogSystem

/-! ## JSON values and the host `JSON.stringify` / `JSON.parse` pair

`utils.storage` persists values through `JSON.stringify` and `JSON.parse`.
The value domain is modelled by `Json` (numbers as exact integers — the
program only ever stores integral timestamps; floating-point serialisation is
outside the embedding).  `stringify` follows the ECMAScript serialisation
(no added whitespace, strings quoted with `\"`, `\\`, the named control
escapes and `\uXXXX` for other control characters); `parseJson` is a
recursive-descent reading of the same grammar that fails (models a thrown
`SyntaxError`) on anything else. -/

mutual
inductive Json where
  | null : Json
  | bool (b : Bool) : Json
  | num (n : Int) : Json
  | str (s : List Char) : Json
  | arr (elems : JsonArr) : Json
  | obj (fields : JsonObj) : Json
inductive JsonArr where
  | nil : JsonArr
  | cons (hd : Json) (tl : JsonArr) : JsonArr
inductive JsonObj where
  | nil : JsonObj
  | cons (key : List Char) (val : Json) (tl : JsonObj) : JsonObj
end

def lbraceChar : Char := '\x7b'

def rbraceChar : Char := '\x7d'

def hexDigitChar (d : Nat) : Char :=
  if d < 10 then Char.ofNat (48 + d) else Char.ofNat (87 + d)

def hex4 (n : Nat) : List Char :=
  [hexDigitChar (n / 4096 % 16), hexDigitChar (n / 256 % 16),
   hexDigitChar (n / 16 % 16), hexDigitChar (n % 16)]

def escJsonChar (c : Char) : List Char :=
  if c = '"' then ['\\', '"']
  else if c = '\\' then ['\\', '\\']
  else if c = '\x08' then ['\\', 'b']
  else if c = '\t' then ['\\', 't']
  else if c = '\n' then ['\\', 'n']
  else if c = '\x0c' then ['\\', 'f']
  else if c = '\r' then ['\\', 'r']
  else if c.toNat < 32 then '\\' :: 'u' :: hex4 c.toNat
  else [c]

def escJsonString (s : List Char) : List Char := (s.map escJsonChar).flatten

def isDigitChar (c : Char) : Bool := '0' ≤ c && c ≤ '9'

def digitChar (d : Nat) : Char := Char.ofNat (48 + d)

def natDigits : Nat → List Char
  | 0 => []
  | n + 1 => natDigits ((n + 1) / 10) ++ [digitChar ((n + 1) % 10)]
decreasing_by exact Nat.div_lt_self (Nat.succ_pos n) (by norm_num)

def natChars (n : Nat) : List Char := if n = 0 then ['0'] else natDigits n

def intChars (n : Int) : List Char :=
  if n < 0 then '-' :: natChars n.natAbs else natChars n.toNat

mutual
def Json.stringify : Json → List Char
  | .null => ("null").data
  | .bool true => ("true").data
  | .bool false => ("false").data
  | .num n => intChars n
  | .str s => '"' :: (escJsonString s ++ ['"'])
  | .arr a => '[' :: (JsonArr.stringifyElems a ++ [']'])
  | .obj o => lbraceChar :: (JsonObj.stringifyFields o ++ [rbraceChar])
def JsonArr.stringifyElems : JsonArr → List Char
  | .nil => []
  | .cons v .nil => v.stringify
  | .cons v (.cons w tl) => v.stringify ++ ',' :: JsonArr.stringifyElems (.cons w tl)
def JsonObj.stringifyFields : JsonObj → List Char
  | .nil => []
  | .cons k v .nil => '"' :: (escJsonString k ++ '"' :: ':' :: v.stringify)
  | .cons k v (.cons k2 w tl) =>
    ('"' :: (escJsonString k ++ '"' :: ':' :: v.stringify))
      ++ ',' :: JsonObj.stringifyFields (.cons k2 w tl)
end

def digitsToNat (ds : List Char) : Nat :=
  ds.foldl (fun a c => a * 10 + (c.toNat - 48)) 0

def unescJsonChar (c : Char) : Option Char :=
  if c = '"' then some '"'
  else if c = '\\' then some '\\'
  else if c = '/' then some '/'
  else if c = 'b' then some '\x08'
  else if c = 'f' then some '\x0c'
  else if c = 'n' then some '\n'
  else if c = 'r' then some '\r'
  else if c = 't' then some '\t'
  else none

def hexDigitVal (c : Char) : Option Nat :=
  if '0' ≤ c && c ≤ '9' then some (c.toNat - 48)
  else if 'a' ≤ c && c ≤ 'f' then some (c.toNat - 87)
  else if 'A' ≤ c && c ≤ 'F' then some (c.toNat - 55)
  else none

/-- Body of a JSON string, after the opening quote. -/
def parseStringBody : List Char → Option (List Char × List Char)
  | [] => none
  | c :: r =>
    if c = '"' then some ([], r)
    else if c = '\\' then
      match r with
      | [] => none
      | e :: r1 =>
        if e = 'u' then
          match r1 with
          | a :: b :: c2 :: d :: r2 =>
            match hexDigitVal a, hexDigitVal b, hexDigitVal c2, hexDigitVal d with
            | some va, some vb, some vc, some vd =>
              match parseStringBody r2 with
              | some (cs, rest) =>
                some (Char.ofNat (va * 4096 + vb * 256 + vc * 16 + vd) :: cs, rest)
              | none => none
            | _, _, _, _ => none
          | _ => none
        else
          match unescJsonChar e with
          | some uc =>
            match parseStringBody r1 with
            | some (cs, rest) => some (uc :: cs, rest)
            | none => none
          | none => none
    else if c.toNat < 32 then none
    else
      match parseStringBody r with
      | some (cs, rest) => some (c :: cs, rest)
      | none => none
termination_by s => s.length
decreasing_by all_goals simp_wf <;> omega

def parseNullTail : List Char → Option (Json × List Char)
  | 'u' :: 'l' :: 'l' :: r1 => some (.null, r1)
  | _ => none

def parseTrueTail : List Char → Option (Json × List Char)
  | 'r' :: 'u' :: 'e' :: r1 => some (.bool true, r1)
  | _ => none

def parseFalseTail : List Char → Option (Json × List Char)
  | 'a' :: 'l' :: 's' :: 'e' :: r1 => some (.bool false, r1)
  | _ => none

/-- One level of value parsing, with the element and field parsers of the
next-lower fuel level passed in. -/
def parseValBody (pe : List Char → Option (JsonArr × List Char))
    (pf : List Char → Option (JsonObj × List Char)) : List Char → Option (Json × List Char)
  | [] => none
  | c :: r =>
    if c = 'n' then parseNullTail r
    else if c = 't' then parseTrueTail r
    else if c = 'f' then parseFalseTail r
    else if c = '"' then
      match parseStringBody r with
      | some (cs, r1) => some (.str cs, r1)
      | none => none
    else if c = '[' then
      match r with
      | [] => none
      | c1 :: r1 =>
        if c1 = ']' then some (.arr .nil, r1)
        else
          match pe (c1 :: r1) with
          | some (a, r2) => some (.arr a, r2)
          | none => none
    else if c = lbraceChar then
      match r with
      | [] => none
      | c1 :: r1 =>
        if c1 = rbraceChar then some (.obj .nil, r1)
        else
          match pf (c1 :: r1) with
          | some (o, r2) => some (.obj o, r2)
          | none => none
    else if c = '-' then
      match r.takeWhile isDigitChar with
      | [] => none
      | ds => some (.num (-(digitsToNat ds : Int)), r.dropWhile isDigitChar)
    else if isDigitChar c then
      some (.num (digitsToNat ((c :: r).takeWhile isDigitChar)),
            (c :: r).dropWhile isDigitChar)
    else none

def parseElemsBody (pv : List Char → Option (Json × List Char))
    (pe : List Char → Option (JsonArr × List Char)) (s : List Char) :
    Option (JsonArr × List Char) :=
  match pv s with
  | some (v, r) =>
    match r with
    | [] => none
    | c :: r1 =>
      if c = ',' then
        match pe r1 with
        | some (tl, r2) => some (.cons v tl, r2)
        | none => none
      else if c = ']' then some (.cons v .nil, r1)
      else none
  | none => none

def parseFieldsBody (pv : List Char → Option (Json × List Char))
    (pf : List Char → Option (JsonObj × List Char)) (s : List Char) :
    Option (JsonObj × List Char) :=
  match s with
  | [] => none
  | c :: r =>
    if c = '"' then
      match parseStringBody r with
      | some (k, r1) =>
        match r1 with
        | [] => none
        | c1 :: r2 =>
          if c1 = ':' then
            match pv r2 with
            | some (v, r3) =>
              match r3 with
              | [] => none
              | c2 :: r4 =>
                if c2 = ',' then
                  match pf r4 with
                  | some (tl, r5) => some (.cons k v tl, r5)
                  | none => none
                else if c2 = rbraceChar then some (.cons k v .nil, r4)
                else none
            | none => none
          else none
      | none => none
    else none

/-- The three parsers, by recursion on the fuel that bounds nesting depth. -/
def parseFuncs : Nat →
    (List Char → Option (Json × List Char))
    × (List Char → Option (JsonArr × List Char))
    × (List Char → Option (JsonObj × List Char))
  | 0 => (fun _ => none, fun _ => none, fun _ => none)
  | fuel + 1 =>
    let P := parseFuncs fuel
    (parseValBody P.2.1 P.2.2, parseElemsBody P.1 P.2.1, parseFieldsBody P.1 P.2.2)

def parseVal (fuel : Nat) (s : List Char) : Option (Json × List Char) :=
  (parseFuncs fuel).1 s

def parseElems (fuel : Nat) (s : List Char) : Option (JsonArr × List Char) :=
  (parseFuncs fuel).2.1 s

def parseFields (fuel : Nat) (s : List Char) : Option (JsonObj × List Char) :=
  (parseFuncs fuel).2.2 s

/-- `JSON.parse` over a whole input (no trailing characters). -/
def parseJson (s : List Char) : Option Json :=
  match parseVal (s.length + 1) s with
  | some (v, []) => some v
  | _ => none

/-! ## utils.js: `storage` -/

/-- `localStorage.getItem`: the most recent value set for the key. -/
def lsGetItem (st : List (String × String)) (k : String) : Option String :=
  (st.find? fun e => e.1 == k).map Prod.snd

def lsSetItem (st : List (String × String)) (k v : String) : List (String × String) :=
  (k, v) :: st

namespace storage

/-- `storage.get(key, defaultValue)` given the raw read outcome: a thrown read
(`.error`) is caught; a `null` item and the empty string are both falsy, so
`defaultValue` is returned; otherwise the item is `JSON.parse`d, a parse
throw again yielding `defaultValue`. -/
def getFromRead (read : Except Unit (Option String)) (defaultValue : Json) : Json :=
  match read with
  | .error _ => defaultValue
  | .ok none => defaultValue
  | .ok (some item) =>
    if item = "" then defaultValue
    else
      match parseJson item.data with
      | some v => v
      | none => defaultValue

/-- `storage.get` against a store. -/
def get (st : List (String × String)) (k : String) (defaultValue : Json) : Json :=
  getFromRead (.ok (lsGetItem st k)) defaultValue

/-- `storage.set(key, value)`: `JSON.stringify` then `setItem`; a quota throw
is caught and reported as `false` with the store unchanged. -/
def set (st : List (String × String)) (k : String) (v : Json) (quotaExceeded : Bool) :
    List (String × String) × Bool :=
  if quotaExceeded then (st, false)
  else (lsSetItem st k ⟨v.stringify⟩, true)

end storage

/-! ## welcome.js: skip decisions and the timer-driven sequences -/

/-- Truthiness and the `expires` read used by `shouldSkipAnimation`:
`skipData.expires || 0` for the value shapes the code itself writes
(an object with a numeric `expires`, or nothing). -/
def jsonTruthy (j : Json) : Bool :=
  match j with
  | .null => false
  | .bool b => b
  | .num n => decide (n ≠ 0)
  | .str s => decide (s ≠ [])
  | .arr _ => true
  | .obj _ => true

def JsonObj.lookup : JsonObj → List Char → Option Json
  | .nil, _ => none
  | .cons k v tl, key => if k = key then some v else JsonObj.lookup tl key

def expiresOf (j : Json) : Int :=
  match j with
  | .obj fs =>
    match JsonObj.lookup fs (("expires").data) with
    | some (.num n) => n
    | _ => 0
  | _ => 0

/-- The browser environment both intro overlays read. -/
structure Env where
  sessionLoaderShown : Option String
  urlSkipParam : Option String
  reducedMotion : Bool
  localStore : List (String × String)
  now : Int

/-- What `init()` does with the overlay: bypass it at once, or run the timed
sequence (for the starfield loader, with or without the canvas animation). -/
inductive LoaderInit where
  | skippedImmediately
  | runsSequence (starfieldActive : Bool)
deriving DecidableEq

namespace StarfieldLoader

/-- `shouldSkip()`: session flag or `?skip=true` — reduced motion is *not*
consulted here. -/
def shouldSkip (e : Env) : Bool :=
  jsStrTruthy e.sessionLoaderShown || e.urlSkipParam == some ("true")

/-- `init()`: `skipImmediately` when `shouldSkip()`, otherwise the timed
sequence runs, initialising the canvas starfield only without reduced motion. -/
def initModel (e : Env) : LoaderInit :=
  if shouldSkip e then .skippedImmediately else .runsSequence (!e.reducedMotion)

end StarfieldLoader

namespace WelcomeAnimation

/-- `shouldSkipAnimation()`: unexpired stored skip preference, reduced motion,
or `?skip=true`. -/
def shouldSkipAnimation (e : Env) : Bool :=
  let skipData := storage.get e.localStore ("welcomeSkipped") Json.null
  (jsonTruthy skipData && decide (e.now < expiresOf skipData))
    || e.reducedMotion || e.urlSkipParam == some ("true")

/-- `init()`. -/
def initModel (e : Env) : LoaderInit :=
  if shouldSkipAnimation e then .skippedImmediately else .runsSequence false

end WelcomeAnimation

/-! ## StarfieldLoader completion machine (claim C9)

`skip()` / `complete()` and the guarded timers, as a step function over the
events the browser can deliver in any order.  `pendingFade` counts scheduled
fade-out timers; each fires once and dispatches `loaderComplete`. -/

structure SFState where
  isComplete : Bool
  isSkipped : Bool
  pendingFade : Nat
deriving DecidableEq

inductive SFEvent where
  | skipClick
  | escapeKey
  | fallbackTimer
  | resourceTimer
  | fadeTimer
deriving DecidableEq

inductive SFAction where
  | completeRun
  | dispatchLoaderComplete
deriving DecidableEq

namespace StarfieldLoader

/-- `complete()`: guarded by `isComplete`; its body runs once, stops the
animation and schedules the fade-out timer that will dispatch the event. -/
def completeFn (s : SFState) : SFState × List SFAction :=
  if s.isComplete then (s, [])
  else ({ s with isComplete := true, pendingFade := s.pendingFade + 1 },
        [SFAction.completeRun])

/-- `skip()`: guarded by both flags; sets `isSkipped` and completes. -/
def skipFn (s : SFState) : SFState × List SFAction :=
  if s.isComplete || s.isSkipped then (s, [])
  else completeFn { s with isSkipped := true }

def step (s : SFState) : SFEvent → SFState × List SFAction
  | .skipClick => skipFn s
  | .escapeKey => if s.isComplete then (s, []) else skipFn s
  | .fallbackTimer => if !s.isComplete && !s.isSkipped then completeFn s else (s, [])
  | .resourceTimer => if !s.isComplete && !s.isSkipped then completeFn s else (s, [])
  | .fadeTimer =>
    if s.pendingFade > 0 then
      ({ s with pendingFade := s.pendingFade - 1 }, [SFAction.dispatchLoaderComplete])
    else (s, [])

def run (s : SFState) : List SFEvent → SFState × List SFAction
  | [] => (s, [])
  | e :: es =>
    let p := step s e
    let q := run p.1 es
    (q.1, p.2 ++ q.2)

def initState : SFState := ⟨false, false, 0⟩

end StarfieldLoader

/-! ## WelcomeAnimation sequence machine (claim C9)

`startAnimation()` is an async chain of five `await utils.wait(...)`
resumptions, each first checking `hasSkipped`; the fifth runs `fadeOut()`.
`pc` is the resumption to run next (`5` = sequence finished or aborted). -/

structure WAState where
  pc : Nat
  hasSkipped : Bool
  animationComplete : Bool
deriving DecidableEq

inductive WAEvent where
  | seqResume
  | skipClick
deriving DecidableEq

inductive WAAction where
  | animStepRun (k : Nat)
  | fadeOutRun
deriving DecidableEq

namespace WelcomeAnimation

/-- `fadeOut()`: guarded by `hasSkipped || animationComplete`. -/
def fadeOutFn (s : WAState) : WAState × List WAAction :=
  if s.hasSkipped || s.animationComplete then (s, [])
  else ({ s with animationComplete := true }, [WAAction.fadeOutRun])

/-- `skip()`: guarded; sets `hasSkipped`, stores the preference, then calls
`fadeOut()` — which its own guard now short-circuits. -/
def skipFn (s : WAState) : WAState × List WAAction :=
  if s.hasSkipped || s.animationComplete then (s, [])
  else fadeOutFn { s with hasSkipped := true }

/-- A `utils.wait` resumption of `startAnimation()`: `if (this.hasSkipped)
return;` then the step's visible effect; the last resumption calls
`fadeOut()`. -/
def seqResumeFn (s : WAState) : WAState × List WAAction :=
  if 5 ≤ s.pc then (s, [])
  else if s.hasSkipped then ({ s with pc := 5 }, [])
  else if s.pc = 4 then fadeOutFn { s with pc := 5 }
  else ({ s with pc := s.pc + 1 }, [WAAction.animStepRun s.pc])

def stepW (s : WAState) : WAEvent → WAState × List WAAction
  | .seqResume => seqResumeFn s
  | .skipClick => skipFn s

def runW (s : WAState) : List WAEvent → WAState × List WAAction
  | [] => (s, [])
  | e :: es =>
    let p := stepW s e
    let q := runW p.1 es
    (q.1, p.2 ++ q.2)

def initW : WAState := ⟨0, false, false⟩

end WelcomeAnimation

/-! ## Concrete inputs used by witnesses and counterexamples -/

def mkPost (i : Nat) (cat : String) (tgs : List String) : Post :=
  { id := toString i, title := "T", excerpt := "E", content := none, author := "A",
    category := cat, tags := tgs, date := (i : Int), image := none, readTime := none }

/-- Ten posts, enough to make the listing page show its load-more control. -/
def cexPosts : List Post := (List.range 10).map fun i => mkPost i ("Tech") []

def cexDoc : PostsDoc := ⟨some cexPosts⟩

/-- Listing page trace: load ten posts, render, then select a filter slug that
matches none of them. -/
def cexC1Blog : Blog :=
  BlogSystem.setFilter defaultConfig
    (BlogSystem.initModel defaultConfig (some cexDoc) (Blog.initial [] false))
    ("no-match")

/-- A post whose category text begins with markup. -/
def cexXssPost : Post :=
  { id := "1", title := "t", excerpt := "e", content := none, author := "a",
    category := "<script>", tags := [], date := 0, image := none, readTime := none }

/-- A listing state holding the ten posts (after load, before filtering). -/
def c2Blog : Blog :=
  { posts := cexPosts, filteredPosts := cexPosts, currentFilter := "all",
    currentPage := 1, container := [], loadMoreVisible := false }

def emptyMeta : MetaState := ⟨"t0", "d0", "ot0", "od0", "oi0"⟩

def sp0 : SPState := ⟨[], emptyMeta, none, none⟩

/-- Environment with the reduced-motion preference active and nothing else
that could trigger a skip. -/
def cexEnv : Env := ⟨none, none, true, [], 0⟩

/-- Three posts with distinct ids and dates for the navigation witness. -/
def navPosts : List Post := [mkPost 0 ("Tech") [], mkPost 1 ("Tech") [], mkPost 2 ("Tech") []]

def navDoc : PostsDoc := ⟨some navPosts⟩

mutual
def Json.weight : Json → Nat
  | .null => 1
  | .bool _ => 1
  | .num _ => 1
  | .str _ => 1
  | .arr a => JsonArr.weightElems a + 1
  | .obj o => JsonObj.weightFields o + 1
def JsonArr.weightElems : JsonArr → Nat
  | .nil => 0
  | .cons v tl => max (Json.weight v) (JsonArr.weightElems tl) + 1
def JsonObj.weightFields : JsonObj → Nat
  | .nil => 0
  | .cons _ v tl => max (Json.weight v) (JsonObj.weightFields tl) + 1
end

/-- The characters that may legitimately follow a serialised number inside a
document: none, or a non-digit. -/
def jsonBoundary : List Char → Prop
  | [] => True
  | c :: _ => isDigitChar c = false

/-- Reachability invariant of the welcome machine: the overlay can only have
completed with the sequence finished or after a skip. -/
def WAInv (s : WAState) : Prop :=
  s.animationComplete = true → (s.hasSkipped = true ∨ 5 ≤ s.pc)

/-! # Theorems -/

theorem render_posts (cfg : BlogConfig) (b : Blog) (a : Bool) :
    (BlogSystem.render cfg b a).posts = b.posts := by
  unfold BlogSystem.render BlogSystem.updateLoadMoreButton BlogSystem.showEmpty
  cases a <;> dsimp only <;> split_ifs <;> rfl

theorem render_filteredPosts (cfg : BlogConfig) (b : Blog) (a : Bool) :
    (BlogSystem.render cfg b a).filteredPosts = b.filteredPosts := by
  unfold BlogSystem.render BlogSystem.updateLoadMoreButton BlogSystem.showEmpty
  cases a <;> dsimp only <;> split_ifs <;> rfl

theorem render_currentPage (cfg : BlogConfig) (b : Blog) (a : Bool) :
    (BlogSystem.render cfg b a).currentPage = b.currentPage := by
  unfold BlogSystem.render BlogSystem.updateLoadMoreButton BlogSystem.showEmpty
  cases a <;> dsimp only <;> split_ifs <;> rfl

/-- **C2.** For every post list and filter slug: `setFilter("all")` makes
`filteredPosts` the full (sorted) post list in the same order; `setFilter(s)`
for `s ≠ "all"` makes it exactly the subsequence of posts whose category slug
(lowercased, whitespace runs replaced by hyphens) equals `s` or one of whose
tag slugs equals `s`, preserving relative order (it is a `Sublist` of the post
list); and in both cases the current page is reset to 1. -/
theorem setFilter_resets_page_and_filters :
    ∀ (cfg : BlogConfig) (b : Blog) (f : String),
      (BlogSystem.setFilter cfg b f).currentPage = 1
      ∧ (f = "all" → (BlogSystem.setFilter cfg b f).filteredPosts = b.posts)
      ∧ (f ≠ "all" →
          (BlogSystem.setFilter cfg b f).filteredPosts
            = b.posts.filter (BlogSystem.postMatchesFilter f)
          ∧ (BlogSystem.setFilter cfg b f).filteredPosts.Sublist b.posts) := by
  intro cfg b f
  unfold BlogSystem.setFilter
  refine ⟨?_, ?_, ?_⟩
  · rw [render_currentPage]
  · intro h
    rw [render_filteredPosts]
    simp [h]
  · intro h
    rw [render_filteredPosts]
    refine ⟨if_neg h, ?_⟩
    rw [if_neg h]
    exact List.filter_sublist _

/-- Witness for C2 at a concrete input: filtering the ten-post state by the
slug `tech` selects exactly the matching posts and resets the page. -/
theorem setFilter_witness :
    (BlogSystem.setFilter defaultConfig c2Blog ("tech")).currentPage = 1
    ∧ (BlogSystem.setFilter defaultConfig c2Blog ("tech")).filteredPosts
        = cexPosts.filter (BlogSystem.postMatchesFilter ("tech")) := by
  refine ⟨(setFilter_resets_page_and_filters defaultConfig c2Blog ("tech")).1, ?_⟩
  exact ((setFilter_resets_page_and_filters defaultConfig c2Blog ("tech")).2.2 (by decide)).1

/-- **C3** (code bug): on a fetch or JSON-parse failure `utils.fetchJSON`
returns `null` instead of throwing, so `loadPosts`' `catch`/`showError` branch
never runs; `init()` then renders the *empty* state ("Keine Beiträge
gefunden."), which is not the error state with the retry action the spec
requires. -/
theorem fetch_failure_renders_empty_state :
    ∀ (cfg : BlogConfig) (c0 : List BlogNode) (v0 : Bool),
      (BlogSystem.initModel cfg none (Blog.initial c0 v0)).container = [BlogNode.emptyMsg]
      ∧ ∀ msg cs, BlogSystem.showError (Blog.initial cs v0) msg
          ≠ BlogSystem.showEmpty (Blog.initial cs v0) := by
  intro cfg c0 v0
  constructor
  · unfold BlogSystem.initModel BlogSystem.loadPosts BlogSystem.showLoading
    unfold BlogSystem.render BlogSystem.showEmpty
    simp [Blog.initial]
  · intro msg cs
    simp [BlogSystem.showError, BlogSystem.showEmpty]

/-- **C5** (code bug): `createPostCard` interpolates the single-letter
placeholder `post.category.charAt(0)` into the card markup *without*
`utils.escapeHtml` (every other text field is escaped): for a category
beginning with `<`, the raw `<` lands inside the placeholder `<span>`,
while the escaped form would have been `&lt;`. -/
theorem placeholder_char_unescaped :
    BlogSystem.imageHtml cexXssPost
      = "<div class=\"image-placeholder\">\n           <span><</span>\n         </div>"
    ∧ escapeHtml (charAt0 cexXssPost.category) = "&lt;" := by
  constructor <;> rfl

theorem filter_orderedInsert (d : Int) (a : Post) (s : List Post) :
    (List.orderedInsert postDateDesc a s).filter (fun p => decide (p.date = d))
    = if a.date = d then a :: s.filter (fun p => decide (p.date = d))
      else s.filter (fun p => decide (p.date = d)) := by
  induction s with
  | nil =>
    by_cases ha : a.date = d <;> simp [List.orderedInsert, List.filter_cons, ha]
  | cons b s ih =>
    by_cases hr : postDateDesc a b
    · by_cases ha : a.date = d <;>
        simp [List.orderedInsert, if_pos hr, List.filter_cons, ha]
    · simp only [List.orderedInsert, if_neg hr]
      by_cases hb : b.date = d
      · have ha : ¬a.date = d := by
          intro h
          exact hr (le_of_eq (hb.trans h.symm))
        simp [List.filter_cons, hb, ha, ih]
      · simp [List.filter_cons, hb, ih]

theorem filter_sortPosts (d : Int) (l : List Post) :
    (sortPosts l).filter (fun p => decide (p.date = d))
      = l.filter (fun p => decide (p.date = d)) := by
  unfold sortPosts
  induction l with
  | nil => rfl
  | cons a l ih =>
    rw [List.insertionSort, filter_orderedInsert]
    by_cases ha : a.date = d <;> simp [ha, ih, List.filter_cons]

/-- **C4.** The list stored by `loadPosts` is a permutation of the fetched
`posts` array that is pairwise sorted descending by parsed date (so for two
records with distinct dates the later date appears strictly first), and the
sort is stable: for every date value, the records carrying it appear in their
original relative order. -/
theorem loadPosts_sorted_stable :
    ∀ (b : Blog) (ps : List Post),
      ((BlogSystem.loadPosts b (some ⟨some ps⟩)).posts).Perm ps
      ∧ List.Pairwise (fun a c => c.date ≤ a.date)
          (BlogSystem.loadPosts b (some ⟨some ps⟩)).posts
      ∧ ∀ d : Int,
          ((BlogSystem.loadPosts b (some ⟨some ps⟩)).posts).filter
              (fun p => decide (p.date = d))
            = ps.filter (fun p => decide (p.date = d)) := by
  intro b ps
  have hp : (BlogSystem.loadPosts b (some ⟨some ps⟩)).posts = sortPosts ps := rfl
  rw [hp]
  exact ⟨List.perm_insertionSort _ _, List.sorted_insertionSort postDateDesc ps,
    fun d => filter_sortPosts d ps⟩

theorem enumFrom_filterMap_skip {α β : Type} (f : α → β) (m : Nat) :
    ∀ (i : Nat) (xs : List α),
      (List.enumFrom i xs).filterMap
          (fun ip => if ip.1 < m then none else some (f ip.2))
        = (xs.drop (m - i)).map f := by
  intro i xs
  induction xs generalizing i with
  | nil => simp
  | cons x xs ih =>
    by_cases h : i < m
    · simp only [List.enumFrom, List.filterMap_cons, if_pos h]
      rw [ih (i + 1)]
      have h1 : m - i = (m - (i + 1)) + 1 := by omega
      rw [h1, List.drop_succ_cons]
    · simp only [List.enumFrom, List.filterMap_cons, if_neg h]
      rw [ih (i + 1)]
      have h1 : m - i = 0 := by omega
      have h2 : m - (i + 1) = 0 := by omega
      simp [h1, h2]

theorem cardsOf_map_card (l : List Post) : cardsOf (l.map BlogNode.card) = l := by
  induction l with
  | nil => rfl
  | cons p l ih => simpa [cardsOf, List.filterMap_cons] using ih

/-- `render(append = false)` outside preview mode, when the window is
non-empty: the container holds exactly the cards of the window and the
load-more control is shown iff the window does not cover the filtered list. -/
theorem render_false_nonempty (cfg : BlogConfig) (b : Blog)
    (hpre : cfg.isPreview = false)
    (hne : b.filteredPosts.take (b.currentPage * cfg.postsPerPage) ≠ []) :
    BlogSystem.render cfg b false = { b with
      container := (b.filteredPosts.take (b.currentPage * cfg.postsPerPage)).map BlogNode.card
      loadMoreVisible :=
        decide (b.currentPage * cfg.postsPerPage < b.filteredPosts.length) } := by
  have hne' : (b.filteredPosts.take (b.currentPage * cfg.postsPerPage)).isEmpty = false := by
    cases h : (b.filteredPosts.take (b.currentPage * cfg.postsPerPage)).isEmpty
    · rfl
    · exact absurd (List.isEmpty_iff.mp h) hne
  unfold BlogSystem.render BlogSystem.updateLoadMoreButton
  dsimp only
  simp only [hpre, hne', Bool.false_eq_true, Bool.false_and, if_false]
  have h2 : (b.filteredPosts.take (b.currentPage * cfg.postsPerPage)).enum.filterMap
      (fun ip => some (BlogNode.card ip.2))
      = (b.filteredPosts.take (b.currentPage * cfg.postsPerPage)).map BlogNode.card := by
    have e1 := List.filterMap_eq_map_iff_forall_eq_some
      (f := fun ip : Nat × Post => some (BlogNode.card ip.2))
      (g := fun ip : Nat × Post => BlogNode.card ip.2)
      (l := (b.filteredPosts.take (b.currentPage * cfg.postsPerPage)).enum)
    rw [e1.mpr fun x _ => rfl,
      show (fun ip : Nat × Post => BlogNode.card ip.2) = (BlogNode.card ∘ Prod.snd) from rfl,
      ← List.map_map, List.enum_map_snd]
  simp only [List.nil_append, h2]

/-- `render(append = true)` outside preview mode, when the window is
non-empty: only the cards past the already-rendered index
`(currentPage - 1) * postsPerPage` are appended. -/
theorem render_true_nonempty (cfg : BlogConfig) (b : Blog)
    (hpre : cfg.isPreview = false)
    (hne : b.filteredPosts.take (b.currentPage * cfg.postsPerPage) ≠ []) :
    BlogSystem.render cfg b true = { b with
      container := b.container ++
        ((b.filteredPosts.take (b.currentPage * cfg.postsPerPage)).drop
          ((b.currentPage - 1) * cfg.postsPerPage)).map BlogNode.card
      loadMoreVisible :=
        decide (b.currentPage * cfg.postsPerPage < b.filteredPosts.length) } := by
  have hne' : (b.filteredPosts.take (b.currentPage * cfg.postsPerPage)).isEmpty = false := by
    cases h : (b.filteredPosts.take (b.currentPage * cfg.postsPerPage)).isEmpty
    · rfl
    · exact absurd (List.isEmpty_iff.mp h) hne
  unfold BlogSystem.render BlogSystem.updateLoadMoreButton
  dsimp only
  simp only [hpre, hne', Bool.false_eq_true, Bool.true_and, if_false, if_true]
  have h2 : (b.filteredPosts.take (b.currentPage * cfg.postsPerPage)).enum.filterMap
      (fun ip => if decide (ip.1 < (b.currentPage - 1) * cfg.postsPerPage) = true
        then none else some (BlogNode.card ip.2))
      = ((b.filteredPosts.take (b.currentPage * cfg.postsPerPage)).drop
          ((b.currentPage - 1) * cfg.postsPerPage)).map BlogNode.card := by
    have e1 := enumFrom_filterMap_skip BlogNode.card
      ((b.currentPage - 1) * cfg.postsPerPage) 0
      (b.filteredPosts.take (b.currentPage * cfg.postsPerPage))
    simp only [Nat.sub_zero] at e1
    rw [← e1]
    simp [List.enum]
  rw [h2]

/-- `render` with an empty window: the container becomes the empty state (in
both append modes `showEmpty` replaces the content) and nothing else —
in particular the load-more visibility — changes. -/
theorem render_empty_window (cfg : BlogConfig) (b : Blog) (append : Bool)
    (h : b.filteredPosts.take
        (if cfg.isPreview then cfg.previewCount else b.currentPage * cfg.postsPerPage) = []) :
    BlogSystem.render cfg b append = { b with container := [BlogNode.emptyMsg] } := by
  unfold BlogSystem.render BlogSystem.showEmpty
  dsimp only
  rw [if_pos (by simpa [List.isEmpty_iff] using h)]
  cases append <;> rfl

theorem take_ne_nil_of_pos {α : Type} {l : List α} {k : Nat}
    (h : l ≠ []) (hk : 0 < k) : l.take k ≠ [] := by
  simp [List.take_eq_nil_iff, h, Nat.pos_iff_ne_zero.mp hk]

/-- Pagination invariant outside preview mode with a non-empty filtered list:
after the initial render and `n` load-more clicks the container holds exactly
the cards of the clamped prefix `[0, (n+1)·pageSize)`, and the load-more
control is visible exactly while that window is short of the filtered list. -/
theorem afterLoadMore_invariant (cfg : BlogConfig) (b : Blog)
    (hpre : cfg.isPreview = false) (hpp : 0 < cfg.postsPerPage)
    (hne : b.filteredPosts ≠ []) (hpage : b.currentPage = 1) :
    ∀ n : Nat,
      (BlogSystem.afterLoadMore cfg b n).container
          = (b.filteredPosts.take ((n + 1) * cfg.postsPerPage)).map BlogNode.card
      ∧ (BlogSystem.afterLoadMore cfg b n).filteredPosts = b.filteredPosts
      ∧ (BlogSystem.afterLoadMore cfg b n).currentPage = n + 1
      ∧ (BlogSystem.afterLoadMore cfg b n).loadMoreVisible
          = decide ((n + 1) * cfg.postsPerPage < b.filteredPosts.length) := by
  intro n
  induction n with
  | zero =>
    have htake : b.filteredPosts.take (b.currentPage * cfg.postsPerPage) ≠ [] := by
      exact take_ne_nil_of_pos hne (by rw [hpage]; simpa using hpp)
    have heq : BlogSystem.afterLoadMore cfg b 0 = BlogSystem.render cfg b false := rfl
    rw [heq, render_false_nonempty cfg b hpre htake]
    dsimp only
    refine ⟨by simp [hpage], rfl, by simp [hpage], by simp [hpage]⟩
  | succ n ih =>
    obtain ⟨ihc, ihf, ihp, ihv⟩ := ih
    have hfp : ({ BlogSystem.afterLoadMore cfg b n with
        currentPage := (BlogSystem.afterLoadMore cfg b n).currentPage + 1 } : Blog).filteredPosts
        = b.filteredPosts := ihf
    have htake' : ({ BlogSystem.afterLoadMore cfg b n with
        currentPage := (BlogSystem.afterLoadMore cfg b n).currentPage + 1 } : Blog).filteredPosts.take
          (({ BlogSystem.afterLoadMore cfg b n with
            currentPage := (BlogSystem.afterLoadMore cfg b n).currentPage + 1 } : Blog).currentPage
            * cfg.postsPerPage) ≠ [] := by
      rw [hfp]
      exact take_ne_nil_of_pos hne (Nat.mul_pos (Nat.succ_pos _) hpp)
    have heq : BlogSystem.afterLoadMore cfg b (n + 1)
        = BlogSystem.render cfg { BlogSystem.afterLoadMore cfg b n with
            currentPage := (BlogSystem.afterLoadMore cfg b n).currentPage + 1 } true := rfl
    rw [heq, render_true_nonempty cfg _ hpre htake']
    dsimp only
    rw [hfp, ihp, ihc]
    have hmin : b.filteredPosts.take ((n + 1) * cfg.postsPerPage)
        = (b.filteredPosts.take ((n + 1 + 1) * cfg.postsPerPage)).take
            ((n + 1) * cfg.postsPerPage) := by
      rw [List.take_take, min_eq_left]
      exact Nat.mul_le_mul_right _ (by omega)
    have hsub : n + 1 + 1 - 1 = n + 1 := by omega
    refine ⟨?_, rfl, rfl, rfl⟩
    rw [hsub, hmin, ← List.map_append, List.take_append_drop]

/-- With an empty filtered list every (re-)render goes through `showEmpty` and
returns early: no cards, and the load-more control's visibility is never
touched (only the page counter advances). -/
theorem afterLoadMore_empty (cfg : BlogConfig) (b : Blog)
    (hne : b.filteredPosts = []) :
    ∀ n, BlogSystem.afterLoadMore cfg b n
      = { b with container := [BlogNode.emptyMsg], currentPage := b.currentPage + n } := by
  intro n
  induction n with
  | zero =>
    have h0 := render_empty_window cfg b false (by simp [hne])
    simpa using h0
  | succ n ih =>
    have heq : BlogSystem.afterLoadMore cfg b (n + 1)
        = BlogSystem.render cfg { BlogSystem.afterLoadMore cfg b n with
            currentPage := (BlogSystem.afterLoadMore cfg b n).currentPage + 1 } true := rfl
    rw [heq, ih]
    dsimp only
    rw [render_empty_window cfg _ true (by simp [hne])]
    simp [Nat.add_assoc]

/-- Preview-mode render with a non-empty window: the preview slice is rendered
and `updateLoadMoreButton` returns without touching the control. -/
theorem render_preview_nonempty (cfg : BlogConfig) (b : Blog)
    (hpre : cfg.isPreview = true)
    (hne : b.filteredPosts.take cfg.previewCount ≠ []) :
    BlogSystem.render cfg b false = { b with
      container := (b.filteredPosts.take cfg.previewCount).map BlogNode.card } := by
  have hne' : (b.filteredPosts.take cfg.previewCount).isEmpty = false := by
    cases h : (b.filteredPosts.take cfg.previewCount).isEmpty
    · rfl
    · exact absurd (List.isEmpty_iff.mp h) hne
  unfold BlogSystem.render BlogSystem.updateLoadMoreButton
  dsimp only
  simp only [hpre, hne', Bool.false_eq_true, Bool.false_and, if_false, if_true]
  have h2 : (b.filteredPosts.take cfg.previewCount).enum.filterMap
      (fun ip => some (BlogNode.card ip.2))
      = (b.filteredPosts.take cfg.previewCount).map BlogNode.card := by
    have e1 := List.filterMap_eq_map_iff_forall_eq_some
      (f := fun ip : Nat × Post => some (BlogNode.card ip.2))
      (g := fun ip : Nat × Post => BlogNode.card ip.2)
      (l := (b.filteredPosts.take cfg.previewCount).enum)
    rw [e1.mpr fun x _ => rfl,
      show (fun ip : Nat × Post => BlogNode.card ip.2) = (BlogNode.card ∘ Prod.snd) from rfl,
      ← List.map_map, List.enum_map_snd]
  simp only [List.nil_append, h2]

/-- **C1 (amended).** Outside preview mode, *provided the filtered list is
non-empty*, after `n` load-more activations the rendered cards are exactly the
prefix `[0, (n+1)·postsPerPage)` of the filtered list clamped to its length,
and the load-more control is hidden iff that window covers the filtered list.
When the filtered list is empty, the empty state (no cards) is rendered and
the control retains its previous visibility — it is *not* hidden, because
`render` returns before `updateLoadMoreButton`.  In preview mode exactly
`min(previewCount, length)` posts are rendered and the control's visibility is
never modified (so it is never shown by the system). -/
theorem pagination_window_and_loadmore :
    ∀ (cfg : BlogConfig) (b : Blog) (n : Nat),
      cfg.isPreview = false → 0 < cfg.postsPerPage → b.currentPage = 1 →
      (b.filteredPosts ≠ [] →
          cardsOf (BlogSystem.afterLoadMore cfg b n).container
            = b.filteredPosts.take ((n + 1) * cfg.postsPerPage)
          ∧ ((BlogSystem.afterLoadMore cfg b n).loadMoreVisible = false
              ↔ b.filteredPosts.length ≤ (n + 1) * cfg.postsPerPage))
      ∧ (b.filteredPosts = [] →
          cardsOf (BlogSystem.afterLoadMore cfg b n).container = []
          ∧ (BlogSystem.afterLoadMore cfg b n).loadMoreVisible = b.loadMoreVisible)
      ∧ (∀ pcfg : BlogConfig, pcfg.isPreview = true →
          (cardsOf (BlogSystem.render pcfg b false).container).length
              = min pcfg.previewCount b.filteredPosts.length
          ∧ (BlogSystem.render pcfg b false).loadMoreVisible = b.loadMoreVisible) := by
  intro cfg b n hpre hpp hpage
  refine ⟨?_, ?_, ?_⟩
  · intro hne
    obtain ⟨hc, _, _, hv⟩ := afterLoadMore_invariant cfg b hpre hpp hne hpage n
    refine ⟨by rw [hc, cardsOf_map_card], ?_⟩
    rw [hv]
    simp [Nat.not_lt]
  · intro he
    rw [afterLoadMore_empty cfg b he n]
    exact ⟨rfl, rfl⟩
  · intro pcfg hp
    by_cases hq : b.filteredPosts.take pcfg.previewCount = []
    · rw [render_empty_window pcfg b false (by simpa [hp] using hq)]
      have : pcfg.previewCount = 0 ∨ b.filteredPosts = [] := by
        simpa [List.take_eq_nil_iff] using hq
      rcases this with h | h <;> simp [h, cardsOf]
    · rw [render_preview_nonempty pcfg b hp hq]
      refine ⟨?_, rfl⟩
      rw [cardsOf_map_card, List.length_take]

/-- Witness for the amended C1 at a concrete input: ten posts, page size 9,
zero activations. -/
theorem pagination_window_witness :
    cardsOf (BlogSystem.afterLoadMore defaultConfig c2Blog 0).container
        = c2Blog.filteredPosts.take ((0 + 1) * defaultConfig.postsPerPage)
    ∧ ((BlogSystem.afterLoadMore defaultConfig c2Blog 0).loadMoreVisible = false
        ↔ c2Blog.filteredPosts.length ≤ (0 + 1) * defaultConfig.postsPerPage) :=
  (pagination_window_and_loadmore defaultConfig c2Blog 0 rfl (by decide) rfl).1
    (by decide)

/-- **C1** is false as stated: load ten posts (the load-more control becomes
visible), then select the filter slug `no-match`.  The filtered list is empty,
so the window `[0, 1·9)` covers it, yet the control is still displayed —
the claimed "hidden iff covered" equivalence fails at this state. -/
theorem loadmore_claim_counterexample :
    cexC1Blog.filteredPosts = [] ∧ cexC1Blog.loadMoreVisible = true
    ∧ ¬ ((cexC1Blog.loadMoreVisible = false)
          ↔ cexC1Blog.filteredPosts.length ≤ (0 + 1) * defaultConfig.postsPerPage) := by
  constructor
  · decide
  · constructor
    · decide
    · decide

/-- **C6.** When the `id` query parameter is missing (or empty — both falsy)
or matches no record under text comparison, the detail view renders the error
message with the back link and performs no metadata update: document title,
meta description and Open Graph fields all stay as they were. -/
theorem detail_not_found :
    ∀ (fr navFr : FetchResult) (s0 : SPState),
      (SinglePostLoader.init none fr navFr s0
          = SinglePostLoader.showError s0 ("Kein Beitrag angegeben.")
        ∧ (SinglePostLoader.init none fr navFr s0).meta = s0.meta)
      ∧ (∀ id : String, id ≠ "" →
          SinglePostLoader.loadPost fr id = none →
            SinglePostLoader.init (some id) fr navFr s0
              = SinglePostLoader.showError (SinglePostLoader.showLoading s0)
                  ("Beitrag nicht gefunden.")
            ∧ (SinglePostLoader.init (some id) fr navFr s0).meta = s0.meta
            ∧ (SinglePostLoader.init (some id) fr navFr s0).container
                = [SPNode.errorBackMsg ("Beitrag nicht gefunden.")])
      ∧ (∀ (ps : List Post) (id : String), fr = some ⟨some ps⟩ →
          (∀ p ∈ ps, p.id ≠ id) → SinglePostLoader.loadPost fr id = none) := by
  intro fr navFr s0
  refine ⟨⟨rfl, rfl⟩, ?_, ?_⟩
  · intro id hid hload
    have ht : jsStrTruthy (some id) = true := by simp [jsStrTruthy, hid]
    unfold SinglePostLoader.init
    rw [ht]
    simp only [Bool.true_eq_false, if_false, Option.getD_some, hload]
    exact ⟨trivial, rfl, rfl⟩
  · intro ps id hfr hnone
    subst hfr
    unfold SinglePostLoader.loadPost
    dsimp only
    rw [List.find?_eq_none]
    intro p hp
    simpa using hnone p hp

/-- Witness for C6: identifier `99` is absent from the ten-post document. -/
theorem detail_not_found_witness :
    SinglePostLoader.init (some ("99")) (some cexDoc) none sp0
        = SinglePostLoader.showError (SinglePostLoader.showLoading sp0)
            ("Beitrag nicht gefunden.")
    ∧ (SinglePostLoader.init (some ("99")) (some cexDoc) none sp0).meta = sp0.meta :=
  ⟨(((detail_not_found (some cexDoc) none sp0).2.1) ("99") (by decide) (by decide)).1,
   (((detail_not_found (some cexDoc) none sp0).2.1) ("99") (by decide) (by decide)).2.1⟩

/-- **C7.** For a post present at position `i` of the descending-sorted set,
`setupNavigation` points the previous link at the element *after* it
(the next-older post, its date `≤` the current one) and the next link at the
element *before* it (the next-newer post, its date `≥` the current one); at
the newest (`i = 0`) and oldest (`i + 1 = length`) ends the corresponding
link is hidden (`none`) instead of wrapping around. -/
theorem setupNavigation_adjacent :
    ∀ (ps : List Post) (cur : Post) (i : Nat) (nav0 : Option Post × Option Post),
      (sortPosts ps).findIdx? (fun p => p.id == cur.id) = some i →
      (sortPosts ps).get? i = some cur →
      (SinglePostLoader.setupNavigation (some ⟨some ps⟩) cur nav0).1
          = (sortPosts ps).get? (i + 1)
      ∧ (SinglePostLoader.setupNavigation (some ⟨some ps⟩) cur nav0).2
          = (if i = 0 then none else (sortPosts ps).get? (i - 1))
      ∧ (∀ q, (sortPosts ps).get? (i + 1) = some q → q.date ≤ cur.date)
      ∧ (∀ q, i ≠ 0 → (sortPosts ps).get? (i - 1) = some q → cur.date ≤ q.date)
      ∧ (i = 0 → (SinglePostLoader.setupNavigation (some ⟨some ps⟩) cur nav0).2 = none)
      ∧ ((sortPosts ps).length ≤ i + 1 →
          (SinglePostLoader.setupNavigation (some ⟨some ps⟩) cur nav0).1 = none) := by
  intro ps cur i nav0 hfind hget
  have hsorted : List.Sorted postDateDesc (sortPosts ps) :=
    List.sorted_insertionSort postDateDesc ps
  have hnav : SinglePostLoader.setupNavigation (some ⟨some ps⟩) cur nav0
      = (jsIndex (sortPosts ps) ((i : Int) + 1), jsIndex (sortPosts ps) ((i : Int) - 1)) := by
    unfold SinglePostLoader.setupNavigation
    dsimp only
    rw [hfind]
  have h1 : jsIndex (sortPosts ps) ((i : Int) + 1) = (sortPosts ps).get? (i + 1) := by
    unfold jsIndex
    rw [if_neg (by omega)]
    norm_num
  have h2 : jsIndex (sortPosts ps) ((i : Int) - 1)
      = (if i = 0 then none else (sortPosts ps).get? (i - 1)) := by
    unfold jsIndex
    by_cases hi : i = 0
    · subst hi
      rw [if_pos (by norm_num), if_pos rfl]
    · rw [if_neg (by omega), if_neg hi]
      congr 1
      omega
  refine ⟨by rw [hnav, h1], by rw [hnav, h2], ?_, ?_, ?_, ?_⟩
  · intro q hq
    obtain ⟨hi, hgi⟩ := List.get?_eq_some.mp hget
    obtain ⟨hj, hgj⟩ := List.get?_eq_some.mp hq
    have := hsorted.rel_get_of_lt (a := ⟨i, hi⟩) (b := ⟨i + 1, hj⟩) (by simp)
    rw [hgi, hgj] at this
    exact this
  · intro q hi0 hq
    obtain ⟨hi, hgi⟩ := List.get?_eq_some.mp hget
    obtain ⟨hj, hgj⟩ := List.get?_eq_some.mp hq
    have := hsorted.rel_get_of_lt (a := ⟨i - 1, hj⟩) (b := ⟨i, hi⟩) (by
      simp only [Fin.mk_lt_mk]
      omega)
    rw [hgi, hgj] at this
    exact this
  · intro hi0
    rw [hnav, h2, if_pos hi0]
  · intro hlen
    rw [hnav, h1]
    exact List.get?_eq_none.mpr hlen

/-- Witness for C7: three posts with dates 0 < 1 < 2; the middle post's
previous link is the older post and its next link the newer one. -/
theorem setupNavigation_witness :
    (SinglePostLoader.setupNavigation (some ⟨some navPosts⟩) (mkPost 1 ("Tech") [])
        (none, none)).1 = (sortPosts navPosts).get? 2
    ∧ (SinglePostLoader.setupNavigation (some ⟨some navPosts⟩) (mkPost 1 ("Tech") [])
        (none, none)).2 = (if 1 = 0 then none else (sortPosts navPosts).get? 0) :=
  ⟨(setupNavigation_adjacent navPosts (mkPost 1 ("Tech") []) 1 (none, none)
      (by decide) (by decide)).1,
   (setupNavigation_adjacent navPosts (mkPost 1 ("Tech") []) 1 (none, none)
      (by decide) (by decide)).2.1⟩

/-- **C8** is false as stated: with the reduced-motion preference active but
no session flag and no `?skip=true`, `StarfieldLoader.shouldSkip()` is `false`,
so `init()` does *not* bypass the starfield overlay — it runs the timed
sequence (merely with the canvas starfield disabled). -/
theorem starfield_reducedmotion_counterexample :
    cexEnv.reducedMotion = true
    ∧ StarfieldLoader.initModel cexEnv ≠ LoaderInit.skippedImmediately
    ∧ StarfieldLoader.initModel cexEnv = LoaderInit.runsSequence false :=
  ⟨rfl, by decide, by decide⟩

/-- **C8 (amended).** Under reduced motion the *welcome* overlay is bypassed
immediately (as with the stored preference and the URL parameter), but the
starfield loader is bypassed exactly on the session flag or `?skip=true`;
reduced motion only disables its canvas starfield, the overlay still runs the
timed sequence. -/
theorem reducedmotion_skip_amended :
    ∀ e : Env,
      (e.reducedMotion = true →
        WelcomeAnimation.initModel e = LoaderInit.skippedImmediately)
      ∧ (StarfieldLoader.initModel e = LoaderInit.skippedImmediately
          ↔ (jsStrTruthy e.sessionLoaderShown = true ∨ e.urlSkipParam = some ("true")))
      ∧ (e.reducedMotion = true →
          StarfieldLoader.initModel e ≠ LoaderInit.runsSequence true) := by
  intro e
  refine ⟨?_, ?_, ?_⟩
  · intro h
    unfold WelcomeAnimation.initModel WelcomeAnimation.shouldSkipAnimation
    rw [h]
    simp
  · constructor
    · intro h
      by_cases hc : StarfieldLoader.shouldSkip e = true
      · have hc2 := hc
        unfold StarfieldLoader.shouldSkip at hc2
        rcases (Bool.or_eq_true _ _).mp hc2 with h1 | h2
        · exact Or.inl h1
        · exact Or.inr (by simpa using h2)
      · unfold StarfieldLoader.initModel at h
        rw [if_neg hc] at h
        exact LoaderInit.noConfusion h
    · intro hp
      have hc : StarfieldLoader.shouldSkip e = true := by
        unfold StarfieldLoader.shouldSkip
        rcases hp with h1 | h2
        · simp [h1]
        · simp [h2]
      unfold StarfieldLoader.initModel
      rw [if_pos hc]
  · intro h hcontra
    unfold StarfieldLoader.initModel at hcontra
    by_cases hc : StarfieldLoader.shouldSkip e = true
    · rw [if_pos hc] at hcontra
      exact LoaderInit.noConfusion hcontra
    · rw [if_neg hc] at hcontra
      have hb : (!e.reducedMotion) = true := by
        simpa using hcontra
      rw [h] at hb
      simp at hb

/-- Witness for the amended C8: in the reduced-motion environment the welcome
overlay is skipped immediately. -/
theorem reducedmotion_skip_witness :
    WelcomeAnimation.initModel cexEnv = LoaderInit.skippedImmediately :=
  (reducedmotion_skip_amended cexEnv).1 rfl

theorem sf_step_complete_count (s : SFState) (e : SFEvent) :
    ((StarfieldLoader.step s e).2.count SFAction.completeRun)
      + (if s.isComplete = true then 1 else 0)
    = (if (StarfieldLoader.step s e).1.isComplete = true then 1 else 0) := by
  cases e <;>
    simp only [StarfieldLoader.step, StarfieldLoader.skipFn, StarfieldLoader.completeFn] <;>
    split_ifs <;>
    simp_all [List.count_cons, List.count_nil]

theorem sf_step_dispatch_count (s : SFState) (e : SFEvent) :
    ((StarfieldLoader.step s e).2.count SFAction.dispatchLoaderComplete)
      + (StarfieldLoader.step s e).1.pendingFade
    = s.pendingFade + ((StarfieldLoader.step s e).2.count SFAction.completeRun) := by
  cases e <;>
    simp only [StarfieldLoader.step, StarfieldLoader.skipFn, StarfieldLoader.completeFn] <;>
    split_ifs <;>
    (simp_all [List.count_cons, List.count_nil]; try omega)

theorem sf_run_complete_count (evs : List SFEvent) : ∀ s : SFState,
    ((StarfieldLoader.run s evs).2.count SFAction.completeRun)
      + (if s.isComplete = true then 1 else 0)
    = (if (StarfieldLoader.run s evs).1.isComplete = true then 1 else 0) := by
  induction evs with
  | nil => intro s; simp [StarfieldLoader.run]
  | cons e es ih =>
    intro s
    have hrun : StarfieldLoader.run s (e :: es)
        = ((StarfieldLoader.run (StarfieldLoader.step s e).1 es).1,
           (StarfieldLoader.step s e).2
             ++ (StarfieldLoader.run (StarfieldLoader.step s e).1 es).2) := rfl
    rw [hrun]
    dsimp only
    rw [List.count_append]
    have h1 := sf_step_complete_count s e
    have h2 := ih (StarfieldLoader.step s e).1
    omega

theorem sf_run_dispatch_count (evs : List SFEvent) : ∀ s : SFState,
    ((StarfieldLoader.run s evs).2.count SFAction.dispatchLoaderComplete)
      + (StarfieldLoader.run s evs).1.pendingFade
    = s.pendingFade
      + ((StarfieldLoader.run s evs).2.count SFAction.completeRun) := by
  induction evs with
  | nil => intro s; simp [StarfieldLoader.run]
  | cons e es ih =>
    intro s
    have hrun : StarfieldLoader.run s (e :: es)
        = ((StarfieldLoader.run (StarfieldLoader.step s e).1 es).1,
           (StarfieldLoader.step s e).2
             ++ (StarfieldLoader.run (StarfieldLoader.step s e).1 es).2) := rfl
    rw [hrun]
    dsimp only
    rw [List.count_append, List.count_append]
    have h1 := sf_step_dispatch_count s e
    have h1c := sf_step_complete_count s e
    have h2 := ih (StarfieldLoader.step s e).1
    omega

theorem wa_step_inv (s : WAState) (e : WAEvent) (hinv : WAInv s) :
    WAInv (WelcomeAnimation.stepW s e).1 := by
  cases e <;>
    simp only [WelcomeAnimation.stepW, WelcomeAnimation.seqResumeFn,
      WelcomeAnimation.skipFn, WelcomeAnimation.fadeOutFn] <;>
    split_ifs <;>
    simp_all [WAInv]

theorem wa_run_inv (evs : List WAEvent) : ∀ s : WAState, WAInv s →
    WAInv (WelcomeAnimation.runW s evs).1 := by
  induction evs with
  | nil => intro s h; exact h
  | cons e es ih =>
    intro s h
    exact ih _ (wa_step_inv s e h)

theorem wa_step_dead (s : WAState) (e : WAEvent) (hinv : WAInv s)
    (hdead : s.hasSkipped = true ∨ s.animationComplete = true) :
    (WelcomeAnimation.stepW s e).2 = []
    ∧ ((WelcomeAnimation.stepW s e).1.hasSkipped = true
        ∨ (WelcomeAnimation.stepW s e).1.animationComplete = true) := by
  cases e <;>
    simp only [WelcomeAnimation.stepW, WelcomeAnimation.seqResumeFn,
      WelcomeAnimation.skipFn, WelcomeAnimation.fadeOutFn] <;>
    split_ifs <;>
    simp_all [WAInv]

theorem wa_run_dead (evs : List WAEvent) : ∀ s : WAState, WAInv s →
    (s.hasSkipped = true ∨ s.animationComplete = true) →
    (WelcomeAnimation.runW s evs).2 = [] := by
  induction evs with
  | nil => intro s _ _; rfl
  | cons e es ih =>
    intro s hinv hdead
    have hrun : WelcomeAnimation.runW s (e :: es)
        = ((WelcomeAnimation.runW (WelcomeAnimation.stepW s e).1 es).1,
           (WelcomeAnimation.stepW s e).2
             ++ (WelcomeAnimation.runW (WelcomeAnimation.stepW s e).1 es).2) := rfl
    rw [hrun]
    dsimp only
    obtain ⟨hnil, hdead'⟩ := wa_step_dead s e hinv hdead
    rw [hnil, ih _ (wa_step_inv s e hinv) hdead']
    rfl

theorem wa_run_append (l1 l2 : List WAEvent) : ∀ s : WAState,
    WelcomeAnimation.runW s (l1 ++ l2)
      = ((WelcomeAnimation.runW (WelcomeAnimation.runW s l1).1 l2).1,
         (WelcomeAnimation.runW s l1).2
           ++ (WelcomeAnimation.runW (WelcomeAnimation.runW s l1).1 l2).2) := by
  induction l1 with
  | nil => intro s; simp [WelcomeAnimation.runW]
  | cons e es ih =>
    intro s
    show WelcomeAnimation.runW s (e :: (es ++ l2)) = _
    have hrun : WelcomeAnimation.runW s (e :: (es ++ l2))
        = ((WelcomeAnimation.runW (WelcomeAnimation.stepW s e).1 (es ++ l2)).1,
           (WelcomeAnimation.stepW s e).2
             ++ (WelcomeAnimation.runW (WelcomeAnimation.stepW s e).1 (es ++ l2)).2) := rfl
    rw [hrun, ih]
    have hrun2 : WelcomeAnimation.runW s (e :: es)
        = ((WelcomeAnimation.runW (WelcomeAnimation.stepW s e).1 es).1,
           (WelcomeAnimation.stepW s e).2
             ++ (WelcomeAnimation.runW (WelcomeAnimation.stepW s e).1 es).2) := rfl
    rw [hrun2]
    simp [List.append_assoc]

theorem wa_skip_emits_nothing (s : WAState) :
    (WelcomeAnimation.stepW s WAEvent.skipClick).2 = [] := by
  simp only [WelcomeAnimation.stepW, WelcomeAnimation.skipFn, WelcomeAnimation.fadeOutFn]
  split_ifs <;> simp_all

theorem wa_skip_dead (s : WAState) :
    (WelcomeAnimation.stepW s WAEvent.skipClick).1.hasSkipped = true
    ∨ (WelcomeAnimation.stepW s WAEvent.skipClick).1.animationComplete = true := by
  simp only [WelcomeAnimation.stepW, WelcomeAnimation.skipFn, WelcomeAnimation.fadeOutFn]
  split_ifs <;> simp_all

theorem wa_step_fade_count (s : WAState) (e : WAEvent) :
    ((WelcomeAnimation.stepW s e).2.count WAAction.fadeOutRun)
      + (if s.animationComplete = true then 1 else 0)
    = (if (WelcomeAnimation.stepW s e).1.animationComplete = true then 1 else 0) := by
  cases e <;>
    simp only [WelcomeAnimation.stepW, WelcomeAnimation.seqResumeFn,
      WelcomeAnimation.skipFn, WelcomeAnimation.fadeOutFn] <;>
    split_ifs <;>
    simp_all [List.count_cons, List.count_nil]

theorem wa_run_fade_count (evs : List WAEvent) : ∀ s : WAState,
    ((WelcomeAnimation.runW s evs).2.count WAAction.fadeOutRun)
      + (if s.animationComplete = true then 1 else 0)
    = (if (WelcomeAnimation.runW s evs).1.animationComplete = true then 1 else 0) := by
  induction evs with
  | nil => intro s; simp [WelcomeAnimation.runW]
  | cons e es ih =>
    intro s
    have hrun : WelcomeAnimation.runW s (e :: es)
        = ((WelcomeAnimation.runW (WelcomeAnimation.stepW s e).1 es).1,
           (WelcomeAnimation.stepW s e).2
             ++ (WelcomeAnimation.runW (WelcomeAnimation.stepW s e).1 es).2) := rfl
    rw [hrun]
    dsimp only
    rw [List.count_append]
    have h1 := wa_step_fade_count s e
    have h2 := ih (WelcomeAnimation.stepW s e).1
    omega

/-- **C9.** Once the completion or skip flag of the starfield loader is set,
every later `skip()`, `complete()` or guarded timer callback is a no-op; over
every interleaving of skip, escape, fallback-timer, resource-timer and
fade-timer events the `complete()` body runs at most once and the
`loaderComplete` event is dispatched at most once.  For the welcome
animation, over every interleaving the overlay fade-out runs at most once,
and no animation step runs after a skip event: the step count of the whole
trace equals the step count of the part up to and including the skip. -/
theorem completion_once_and_skip_noop :
    (∀ evs : List SFEvent,
        (StarfieldLoader.run StarfieldLoader.initState evs).2.count SFAction.completeRun ≤ 1
        ∧ (StarfieldLoader.run StarfieldLoader.initState evs).2.count
            SFAction.dispatchLoaderComplete ≤ 1)
    ∧ (∀ s : SFState, s.isComplete = true →
        StarfieldLoader.step s SFEvent.skipClick = (s, [])
        ∧ StarfieldLoader.step s SFEvent.escapeKey = (s, [])
        ∧ StarfieldLoader.step s SFEvent.fallbackTimer = (s, [])
        ∧ StarfieldLoader.step s SFEvent.resourceTimer = (s, []))
    ∧ (∀ l1 l2 : List WAEvent,
        (WelcomeAnimation.runW WelcomeAnimation.initW
            (l1 ++ WAEvent.skipClick :: l2)).2.countP
            (fun a => match a with | WAAction.animStepRun _ => true | _ => false)
          = (WelcomeAnimation.runW WelcomeAnimation.initW
              (l1 ++ [WAEvent.skipClick])).2.countP
            (fun a => match a with | WAAction.animStepRun _ => true | _ => false))
    ∧ (∀ evs : List WAEvent,
        (WelcomeAnimation.runW WelcomeAnimation.initW evs).2.count WAAction.fadeOutRun ≤ 1) := by
  refine ⟨?_, ?_, ?_, ?_⟩
  · intro evs
    have hc := sf_run_complete_count evs StarfieldLoader.initState
    have hd := sf_run_dispatch_count evs StarfieldLoader.initState
    have hb : (if (StarfieldLoader.run StarfieldLoader.initState evs).1.isComplete = true
        then 1 else 0) ≤ 1 := by split <;> omega
    have h0 : (if StarfieldLoader.initState.isComplete = true then 1 else 0) = 0 := rfl
    have hp : StarfieldLoader.initState.pendingFade = 0 := rfl
    constructor <;> omega
  · intro s h
    have h1 : StarfieldLoader.skipFn s = (s, []) := by
      unfold StarfieldLoader.skipFn
      rw [if_pos (by simp [h])]
    refine ⟨h1, ?_, ?_, ?_⟩ <;> simp [StarfieldLoader.step, h, h1]
  · intro l1 l2
    have hsplit1 := wa_run_append l1 (WAEvent.skipClick :: l2) WelcomeAnimation.initW
    have hsplit2 := wa_run_append l1 [WAEvent.skipClick] WelcomeAnimation.initW
    rw [hsplit1, hsplit2]
    dsimp only
    rw [List.countP_append, List.countP_append]
    have hinv1 : WAInv (WelcomeAnimation.runW WelcomeAnimation.initW l1).1 :=
      wa_run_inv l1 WelcomeAnimation.initW (by intro h; exact absurd h (by decide))
    set s1 := (WelcomeAnimation.runW WelcomeAnimation.initW l1).1 with hs1
    have hrun : WelcomeAnimation.runW s1 (WAEvent.skipClick :: l2)
        = ((WelcomeAnimation.runW (WelcomeAnimation.stepW s1 WAEvent.skipClick).1 l2).1,
           (WelcomeAnimation.stepW s1 WAEvent.skipClick).2
             ++ (WelcomeAnimation.runW
                  (WelcomeAnimation.stepW s1 WAEvent.skipClick).1 l2).2) := rfl
    have hrun2 : WelcomeAnimation.runW s1 [WAEvent.skipClick]
        = ((WelcomeAnimation.runW (WelcomeAnimation.stepW s1 WAEvent.skipClick).1 []).1,
           (WelcomeAnimation.stepW s1 WAEvent.skipClick).2
             ++ (WelcomeAnimation.runW
                  (WelcomeAnimation.stepW s1 WAEvent.skipClick).1 []).2) := rfl
    rw [hrun, hrun2]
    dsimp only
    have htail : (WelcomeAnimation.runW
        (WelcomeAnimation.stepW s1 WAEvent.skipClick).1 l2).2 = [] :=
      wa_run_dead l2 _ (wa_step_inv s1 WAEvent.skipClick hinv1) (wa_skip_dead s1)
    rw [htail]
    simp [WelcomeAnimation.runW]
  · intro evs
    have hc := wa_run_fade_count evs WelcomeAnimation.initW
    have hb : (if (WelcomeAnimation.runW WelcomeAnimation.initW evs).1.animationComplete = true
        then 1 else 0) ≤ 1 := by split <;> omega
    have h0 : (if WelcomeAnimation.initW.animationComplete = true then 1 else 0) = 0 := rfl
    omega

/-- Witness for C9 at a concrete state: with the completion flag set, a skip
click is a no-op. -/
theorem completion_once_witness :
    StarfieldLoader.step ⟨true, false, 0⟩ SFEvent.skipClick = (⟨true, false, 0⟩, []) :=
  (completion_once_and_skip_noop.2.1 ⟨true, false, 0⟩ rfl).1

theorem toNat_ofNat_of_lt (n : Nat) (h : n < 55296) : (Char.ofNat n).toNat = n := by
  unfold Char.ofNat
  rw [dif_pos (Or.inl h)]
  rfl

theorem hexDigitVal_hexDigitChar (d : Nat) (h : d < 16) :
    hexDigitVal (hexDigitChar d) = some d := by
  interval_cases d <;> decide

theorem isDigit_digitChar (d : Nat) (h : d < 10) : isDigitChar (digitChar d) = true := by
  interval_cases d <;> decide

theorem toNat_digitChar (d : Nat) (h : d < 10) : (digitChar d).toNat = 48 + d :=
  toNat_ofNat_of_lt _ (by omega)

theorem natDigits_all_digits :
    ∀ n, ∀ c ∈ natDigits n, isDigitChar c = true := by
  intro n
  induction n using Nat.strong_induction_on with
  | _ n ih =>
    match n with
    | 0 => simp [natDigits]
    | n + 1 =>
      intro c hc
      rw [natDigits] at hc
      rcases List.mem_append.mp hc with h1 | h2
      · exact ih ((n + 1) / 10) (Nat.div_lt_self (Nat.succ_pos n) (by norm_num)) c h1
      · rw [List.mem_singleton.mp h2]
        exact isDigit_digitChar _ (Nat.mod_lt _ (by norm_num))

theorem natDigits_ne_nil (n : Nat) (h : 0 < n) : natDigits n ≠ [] := by
  match n with
  | n + 1 =>
    rw [natDigits]
    simp

theorem digitsToNat_append_single (l : List Char) (c : Char) :
    digitsToNat (l ++ [c]) = 10 * digitsToNat l + (c.toNat - 48) := by
  simp [digitsToNat, List.foldl_append]
  ring

theorem digitsToNat_natDigits : ∀ n, digitsToNat (natDigits n) = n := by
  intro n
  induction n using Nat.strong_induction_on with
  | _ n ih =>
    match n with
    | 0 => simp [natDigits, digitsToNat]
    | n + 1 =>
      rw [natDigits, digitsToNat_append_single,
        ih ((n + 1) / 10) (Nat.div_lt_self (Nat.succ_pos n) (by norm_num)),
        toNat_digitChar _ (Nat.mod_lt _ (by norm_num))]
      omega

theorem natChars_all_digits (n : Nat) : ∀ c ∈ natChars n, isDigitChar c = true := by
  unfold natChars
  split
  · simp
    decide
  · exact natDigits_all_digits n

theorem natChars_ne_nil (n : Nat) : natChars n ≠ [] := by
  unfold natChars
  split
  · simp
  · exact natDigits_ne_nil n (Nat.pos_of_ne_zero (by assumption))

theorem digitsToNat_natChars (n : Nat) : digitsToNat (natChars n) = n := by
  unfold natChars
  split
  · next h => subst h; decide
  · exact digitsToNat_natDigits n

theorem takeWhile_append_all {α : Type} (p : α → Bool) :
    ∀ (l1 l2 : List α), (∀ c ∈ l1, p c = true) →
      (l1 ++ l2).takeWhile p = l1 ++ l2.takeWhile p := by
  intro l1 l2 h
  induction l1 with
  | nil => rfl
  | cons a l ih =>
    rw [List.cons_append, List.takeWhile_cons, if_pos (h a (List.mem_cons_self a l)),
      ih fun c hc => h c (List.mem_cons_of_mem a hc)]
    rfl

theorem dropWhile_append_all {α : Type} (p : α → Bool) :
    ∀ (l1 l2 : List α), (∀ c ∈ l1, p c = true) →
      (l1 ++ l2).dropWhile p = l2.dropWhile p := by
  intro l1 l2 h
  induction l1 with
  | nil => rfl
  | cons a l ih =>
    rw [List.cons_append, List.dropWhile_cons, if_pos (h a (List.mem_cons_self a l)),
      ih fun c hc => h c (List.mem_cons_of_mem a hc)]

theorem takeWhile_boundary (l : List Char) (h : jsonBoundary l) :
    l.takeWhile isDigitChar = [] := by
  cases l with
  | nil => rfl
  | cons c cs =>
    rw [List.takeWhile_cons, if_neg (by simp [jsonBoundary] at h; simp [h])]

theorem dropWhile_boundary (l : List Char) (h : jsonBoundary l) :
    l.dropWhile isDigitChar = l := by
  cases l with
  | nil => rfl
  | cons c cs =>
    rw [List.dropWhile_cons, if_neg (by simp [jsonBoundary] at h; simp [h])]

theorem parseStringBody_rt :
    ∀ (s : List Char) (rest : List Char),
      parseStringBody (escJsonString s ++ '"' :: rest) = some (s, rest) := by
  intro s
  induction s with
  | nil =>
    intro rest
    show parseStringBody ('"' :: rest) = some ([], rest)
    rw [parseStringBody.eq_def]
    simp
  | cons c cs ih =>
    intro rest
    have hesc : escJsonString (c :: cs) = escJsonChar c ++ escJsonString cs := by
      simp [escJsonString]
    rw [hesc, List.append_assoc]
    by_cases h1 : c = '"'
    · subst h1
      rw [show escJsonChar '"' = ['\\', '"'] from rfl]
      show parseStringBody ('\\' :: '"' :: (escJsonString cs ++ '"' :: rest)) = _
      rw [parseStringBody.eq_def]
      simp [unescJsonChar, ih rest]
    · by_cases h2 : c = '\\'
      · subst h2
        rw [show escJsonChar '\\' = ['\\', '\\'] from rfl]
        show parseStringBody ('\\' :: '\\' :: (escJsonString cs ++ '"' :: rest)) = _
        rw [parseStringBody.eq_def]
        simp [unescJsonChar, ih rest]
      · by_cases h3 : c = '\x08'
        · subst h3
          rw [show escJsonChar '\x08' = ['\\', 'b'] from rfl]
          show parseStringBody ('\\' :: 'b' :: (escJsonString cs ++ '"' :: rest)) = _
          rw [parseStringBody.eq_def]
          simp [unescJsonChar, ih rest]
        · by_cases h4 : c = '\t'
          · subst h4
            rw [show escJsonChar '\t' = ['\\', 't'] from rfl]
            show parseStringBody ('\\' :: 't' :: (escJsonString cs ++ '"' :: rest)) = _
            rw [parseStringBody.eq_def]
            simp [unescJsonChar, ih rest]
          · by_cases h5 : c = '\n'
            · subst h5
              rw [show escJsonChar '\n' = ['\\', 'n'] from rfl]
              show parseStringBody ('\\' :: 'n' :: (escJsonString cs ++ '"' :: rest)) = _
              rw [parseStringBody.eq_def]
              simp [unescJsonChar, ih rest]
            · by_cases h6 : c = '\x0c'
              · subst h6
                rw [show escJsonChar '\x0c' = ['\\', 'f'] from rfl]
                show parseStringBody ('\\' :: 'f' :: (escJsonString cs ++ '"' :: rest)) = _
                rw [parseStringBody.eq_def]
                simp [unescJsonChar, ih rest]
              · by_cases h7 : c = '\r'
                · subst h7
                  rw [show escJsonChar '\r' = ['\\', 'r'] from rfl]
                  show parseStringBody ('\\' :: 'r' :: (escJsonString cs ++ '"' :: rest)) = _
                  rw [parseStringBody.eq_def]
                  simp [unescJsonChar, ih rest]
                · by_cases h8 : c.toNat < 32
                  · have he : escJsonChar c = '\\' :: 'u' :: hex4 c.toNat := by
                      unfold escJsonChar
                      rw [if_neg h1, if_neg h2, if_neg h3, if_neg h4, if_neg h5,
                        if_neg h6, if_neg h7, if_pos h8]
                    rw [he,
                      show hex4 c.toNat = [hexDigitChar (c.toNat / 4096 % 16),
                        hexDigitChar (c.toNat / 256 % 16), hexDigitChar (c.toNat / 16 % 16),
                        hexDigitChar (c.toNat % 16)] from rfl]
                    show parseStringBody ('\\' :: 'u' :: hexDigitChar (c.toNat / 4096 % 16)
                      :: hexDigitChar (c.toNat / 256 % 16) :: hexDigitChar (c.toNat / 16 % 16)
                      :: hexDigitChar (c.toNat % 16)
                      :: (escJsonString cs ++ '"' :: rest)) = _
                    have e1 := hexDigitVal_hexDigitChar (c.toNat / 4096 % 16) (Nat.mod_lt _ (by norm_num))
                    have e2 := hexDigitVal_hexDigitChar (c.toNat / 256 % 16) (Nat.mod_lt _ (by norm_num))
                    have e3 := hexDigitVal_hexDigitChar (c.toNat / 16 % 16) (Nat.mod_lt _ (by norm_num))
                    have e4 := hexDigitVal_hexDigitChar (c.toNat % 16) (Nat.mod_lt _ (by norm_num))
                    have harith : c.toNat / 4096 % 16 * 4096 + c.toNat / 256 % 16 * 256
                        + c.toNat / 16 % 16 * 16 + c.toNat % 16 = c.toNat := by omega
                    rw [parseStringBody.eq_def]
                    simp only [e1, e2, e3, e4, ih rest]
                    simp [harith, Char.ofNat_toNat]
                  · have he : escJsonChar c = [c] := by
                      unfold escJsonChar
                      rw [if_neg h1, if_neg h2, if_neg h3, if_neg h4, if_neg h5,
                        if_neg h6, if_neg h7, if_neg h8]
                    rw [he]
                    show parseStringBody (c :: (escJsonString cs ++ '"' :: rest)) = _
                    rw [parseStringBody.eq_def]
                    dsimp only
                    rw [if_neg h1, if_neg h2, if_neg h8, ih rest]

theorem natChars_head_digit (n : Nat) :
    ∃ c cs, natChars n = c :: cs ∧ isDigitChar c = true := by
  obtain ⟨c, cs, h⟩ := List.exists_cons_of_ne_nil (natChars_ne_nil n)
  exact ⟨c, cs, h, natChars_all_digits n c (h ▸ List.mem_cons_self c cs)⟩

theorem digit_ne_starters (c : Char) (h : isDigitChar c = true) :
    c ≠ 'n' ∧ c ≠ 't' ∧ c ≠ 'f' ∧ c ≠ '"' ∧ c ≠ '[' ∧ c ≠ lbraceChar ∧ c ≠ '-'
    ∧ c ≠ ']' ∧ c ≠ rbraceChar ∧ c ≠ ',' ∧ c ≠ ':' := by
  refine ⟨?_, ?_, ?_, ?_, ?_, ?_, ?_, ?_, ?_, ?_, ?_⟩ <;>
    (intro hc; subst hc; exact absurd h (by decide))

theorem stringify_head_ne_rsq (v : Json) :
    ∃ c cs, Json.stringify v = c :: cs ∧ c ≠ ']' := by
  cases v with
  | null => exact ⟨'n', _, rfl, by decide⟩
  | bool b =>
    cases b
    · exact ⟨'f', _, rfl, by decide⟩
    · exact ⟨'t', _, rfl, by decide⟩
  | num n =>
    show ∃ c cs, intChars n = c :: cs ∧ c ≠ ']'
    unfold intChars
    split
    · exact ⟨'-', _, rfl, by decide⟩
    · obtain ⟨c, cs, h, hd⟩ := natChars_head_digit n.toNat
      exact ⟨c, cs, h, (digit_ne_starters c hd).2.2.2.2.2.2.2.1⟩
  | str s => exact ⟨'"', _, rfl, by decide⟩
  | arr a => exact ⟨'[', _, rfl, by decide⟩
  | obj o => exact ⟨lbraceChar, _, rfl, by decide⟩

theorem json_one_le_weight (v : Json) : 1 ≤ Json.weight v := by
  cases v <;> simp [Json.weight]

mutual
theorem json_weight_le_len : ∀ v : Json, Json.weight v ≤ (Json.stringify v).length
  | .null => by simp [Json.weight, Json.stringify]
  | .bool b => by cases b <;> simp [Json.weight, Json.stringify]
  | .num n => by
    have h1 : (intChars n).length ≥ 1 := by
      unfold intChars
      split
      · simp
      · have := natChars_ne_nil n.toNat
        cases hx : natChars n.toNat with
        | nil => exact absurd hx this
        | cons a l => simp [hx]
    simpa [Json.weight, Json.stringify] using h1
  | .str s => by simp [Json.weight, Json.stringify]
  | .arr a => by
    have h := jsonArr_weight_le_len a
    simp only [Json.weight, Json.stringify, List.length_cons, List.length_append,
      List.length_singleton]
    omega
  | .obj o => by
    have h := jsonObj_weight_le_len o
    simp only [Json.weight, Json.stringify, List.length_cons, List.length_append,
      List.length_singleton]
    omega
theorem jsonArr_weight_le_len :
    ∀ a : JsonArr, JsonArr.weightElems a ≤ (JsonArr.stringifyElems a).length + 1
  | .nil => by simp [JsonArr.weightElems]
  | .cons v .nil => by
    have h := json_weight_le_len v
    simp only [JsonArr.weightElems, JsonArr.stringifyElems, JsonArr.weightElems]
    omega
  | .cons v (.cons w tl) => by
    have h1 := json_weight_le_len v
    have h2 := jsonArr_weight_le_len (JsonArr.cons w tl)
    simp only [JsonArr.weightElems, JsonArr.stringifyElems, List.length_append,
      List.length_cons] at h2 ⊢
    omega
theorem jsonObj_weight_le_len :
    ∀ o : JsonObj, JsonObj.weightFields o ≤ (JsonObj.stringifyFields o).length + 1
  | .nil => by simp [JsonObj.weightFields]
  | .cons k v .nil => by
    have h := json_weight_le_len v
    simp only [JsonObj.weightFields, JsonObj.stringifyFields, List.length_cons,
      List.length_append, JsonObj.weightFields]
    omega
  | .cons k v (.cons k2 w tl) => by
    have h1 := json_weight_le_len v
    have h2 := jsonObj_weight_le_len (JsonObj.cons k2 w tl)
    simp only [JsonObj.weightFields, JsonObj.stringifyFields, List.length_append,
      List.length_cons] at h2 ⊢
    omega
end

theorem parseVal_succ (fuel : Nat) (s : List Char) :
    parseVal (fuel + 1) s = parseValBody (parseElems fuel) (parseFields fuel) s := rfl

theorem parseElems_succ (fuel : Nat) (s : List Char) :
    parseElems (fuel + 1) s = parseElemsBody (parseVal fuel) (parseElems fuel) s := rfl

theorem parseFields_succ (fuel : Nat) (s : List Char) :
    parseFields (fuel + 1) s = parseFieldsBody (parseVal fuel) (parseFields fuel) s := rfl

theorem stringifyElems_head (v : Json) (tl : JsonArr) :
    ∃ c cs, JsonArr.stringifyElems (JsonArr.cons v tl) = c :: cs ∧ c ≠ ']' := by
  obtain ⟨c, cs, h, hne⟩ := stringify_head_ne_rsq v
  cases tl with
  | nil => exact ⟨c, cs, by rw [JsonArr.stringifyElems, h], hne⟩
  | cons w tl2 =>
    refine ⟨c, cs ++ ',' :: JsonArr.stringifyElems (JsonArr.cons w tl2), ?_, hne⟩
    rw [JsonArr.stringifyElems, h]
    rfl

theorem parseValBody_neg_num (pe : List Char → Option (JsonArr × List Char))
    (pf : List Char → Option (JsonObj × List Char)) (n : Int) (hn : n < 0)
    (rest : List Char) (hb : jsonBoundary rest) :
    parseValBody pe pf (intChars n ++ rest) = some (Json.num n, rest) := by
  have hic : intChars n = '-' :: natChars n.natAbs := by
    unfold intChars
    rw [if_pos hn]
  cases hx : natChars n.natAbs with
  | nil => exact absurd hx (natChars_ne_nil _)
  | cons c0 cs0 =>
    have hall : ∀ c ∈ c0 :: cs0, isDigitChar c = true := fun c hc =>
      natChars_all_digits n.natAbs c (hx ▸ hc)
    have ht : ((c0 :: cs0) ++ rest).takeWhile isDigitChar = c0 :: cs0 := by
      rw [takeWhile_append_all isDigitChar _ rest hall,
        takeWhile_boundary rest hb, List.append_nil]
    have hw : ((c0 :: cs0) ++ rest).dropWhile isDigitChar = rest := by
      rw [dropWhile_append_all isDigitChar _ rest hall, dropWhile_boundary rest hb]
    have hdv : digitsToNat (c0 :: cs0) = n.natAbs := by
      rw [← hx]
      exact digitsToNat_natChars _
    have hfin : (-(n.natAbs : Int)) = n := by omega
    rw [hic, hx]
    show parseValBody pe pf ('-' :: ((c0 :: cs0) ++ rest)) = _
    rw [parseValBody.eq_def]
    dsimp only
    rw [if_neg (by decide), if_neg (by decide), if_neg (by decide), if_neg (by decide),
      if_neg (by decide), if_neg (by decide), if_pos rfl, ht]
    dsimp only
    rw [hw, hdv, hfin]

theorem parseValBody_nonneg_num (pe : List Char → Option (JsonArr × List Char))
    (pf : List Char → Option (JsonObj × List Char)) (n : Int) (hn : 0 ≤ n)
    (rest : List Char) (hb : jsonBoundary rest) :
    parseValBody pe pf (intChars n ++ rest) = some (Json.num n, rest) := by
  have hic : intChars n = natChars n.toNat := by
    unfold intChars
    rw [if_neg (by omega)]
  cases hx : natChars n.toNat with
  | nil => exact absurd hx (natChars_ne_nil _)
  | cons c0 cs0 =>
    have hd0 : isDigitChar c0 = true :=
      natChars_all_digits _ c0 (hx ▸ List.mem_cons_self _ _)
    obtain ⟨g1, g2, g3, g4, g5, g6, g7, _, _, _, _⟩ := digit_ne_starters c0 hd0
    have hall : ∀ c ∈ c0 :: cs0, isDigitChar c = true := fun c hc =>
      natChars_all_digits n.toNat c (hx ▸ hc)
    have ht : (c0 :: (cs0 ++ rest)).takeWhile isDigitChar = c0 :: cs0 := by
      rw [show c0 :: (cs0 ++ rest) = (c0 :: cs0) ++ rest from rfl,
        takeWhile_append_all isDigitChar _ rest hall,
        takeWhile_boundary rest hb, List.append_nil]
    have hw : (c0 :: (cs0 ++ rest)).dropWhile isDigitChar = rest := by
      rw [show c0 :: (cs0 ++ rest) = (c0 :: cs0) ++ rest from rfl,
        dropWhile_append_all isDigitChar _ rest hall, dropWhile_boundary rest hb]
    have hdv : digitsToNat (c0 :: cs0) = n.toNat := by
      rw [← hx]
      exact digitsToNat_natChars _
    have hfin : ((n.toNat : Int)) = n := by omega
    rw [hic, hx]
    show parseValBody pe pf (c0 :: (cs0 ++ rest)) = _
    rw [parseValBody.eq_def]
    dsimp only
    rw [if_neg g1, if_neg g2, if_neg g3, if_neg g4, if_neg g5, if_neg g6, if_neg g7,
      if_pos hd0, ht, hw, hdv, hfin]

theorem parse_rt : ∀ fuel : Nat,
    (∀ (v : Json) (rest : List Char), Json.weight v ≤ fuel → jsonBoundary rest →
      parseVal fuel (Json.stringify v ++ rest) = some (v, rest))
    ∧ (∀ (a : JsonArr) (rest : List Char), JsonArr.weightElems a ≤ fuel → a ≠ JsonArr.nil →
      parseElems fuel (JsonArr.stringifyElems a ++ ']' :: rest) = some (a, rest))
    ∧ (∀ (o : JsonObj) (rest : List Char), JsonObj.weightFields o ≤ fuel → o ≠ JsonObj.nil →
      parseFields fuel (JsonObj.stringifyFields o ++ rbraceChar :: rest) = some (o, rest)) := by
  intro fuel
  induction fuel with
  | zero =>
    refine ⟨?_, ?_, ?_⟩
    · intro v rest hwv _
      exact absurd (le_trans (json_one_le_weight v) hwv) (by omega)
    · intro a rest hw ha
      cases a with
      | nil => exact absurd rfl ha
      | cons v tl =>
        rw [JsonArr.weightElems] at hw
        omega
    · intro o rest hw ho
      cases o with
      | nil => exact absurd rfl ho
      | cons k v tl =>
        rw [JsonObj.weightFields] at hw
        omega
  | succ f ih =>
    obtain ⟨ih1, ih2, ih3⟩ := ih
    refine ⟨?_, ?_, ?_⟩
    · intro v rest hwv hb
      rw [parseVal_succ]
      cases v with
      | null =>
        have h0 : Json.stringify Json.null = ['n', 'u', 'l', 'l'] := by rw [Json.stringify]
        rw [h0]
        show parseValBody (parseElems f) (parseFields f)
          ('n' :: ('u' :: 'l' :: 'l' :: rest)) = _
        rw [parseValBody.eq_def]
        try dsimp only
        rw [if_pos rfl]
        simp [parseNullTail]
      | bool b =>
        cases b with
        | true =>
          have h0 : Json.stringify (Json.bool true) = ['t', 'r', 'u', 'e'] := by
            rw [Json.stringify]
          rw [h0]
          show parseValBody (parseElems f) (parseFields f)
            ('t' :: ('r' :: 'u' :: 'e' :: rest)) = _
          rw [parseValBody.eq_def]
          try dsimp only
          rw [if_neg (by decide), if_pos rfl]
          simp [parseTrueTail]
        | false =>
          have h0 : Json.stringify (Json.bool false) = ['f', 'a', 'l', 's', 'e'] := by
            rw [Json.stringify]
          rw [h0]
          show parseValBody (parseElems f) (parseFields f)
            ('f' :: ('a' :: 'l' :: 's' :: 'e' :: rest)) = _
          rw [parseValBody.eq_def]
          try dsimp only
          rw [if_neg (by decide), if_neg (by decide), if_pos rfl]
          simp [parseFalseTail]
      | num n =>
        have h0 : Json.stringify (Json.num n) = intChars n := by rw [Json.stringify]
        rw [h0]
        rcases lt_or_ge n 0 with hn | hn
        · exact parseValBody_neg_num _ _ n hn rest hb
        · exact parseValBody_nonneg_num _ _ n hn rest hb
      | str s =>
        have h0 : Json.stringify (Json.str s) = '"' :: (escJsonString s ++ ['"']) := by
          rw [Json.stringify]
        rw [h0]
        show parseValBody (parseElems f) (parseFields f)
          ('"' :: ((escJsonString s ++ ['"']) ++ rest)) = _
        have hassoc : (escJsonString s ++ ['"']) ++ rest = escJsonString s ++ '"' :: rest := by
          simp
        rw [hassoc, parseValBody.eq_def]
        try dsimp only
        rw [if_neg (by decide), if_neg (by decide), if_neg (by decide), if_pos rfl,
          parseStringBody_rt s rest]
      | arr a =>
        cases a with
        | nil =>
          have h0 : Json.stringify (Json.arr JsonArr.nil) = ['[', ']'] := by
            rw [Json.stringify, JsonArr.stringifyElems]
            simp
          rw [h0]
          show parseValBody (parseElems f) (parseFields f) ('[' :: (']' :: rest)) = _
          rw [parseValBody.eq_def]
          try dsimp only
          rw [if_neg (by decide), if_neg (by decide), if_neg (by decide),
            if_neg (by decide), if_pos rfl]
          try dsimp only
          rw [if_pos rfl]
        | cons v tl =>
          have h0 : Json.stringify (Json.arr (JsonArr.cons v tl))
              = '[' :: (JsonArr.stringifyElems (JsonArr.cons v tl) ++ [']']) := by
            rw [Json.stringify]
          obtain ⟨c0, cs0, hc0, hne0⟩ := stringifyElems_head v tl
          have hwa : JsonArr.weightElems (JsonArr.cons v tl) ≤ f := by
            rw [Json.weight] at hwv
            omega
          rw [h0, hc0]
          show parseValBody (parseElems f) (parseFields f)
            ('[' :: (((c0 :: cs0) ++ [']']) ++ rest)) = _
          have hassoc : ((c0 :: cs0) ++ [']']) ++ rest = c0 :: (cs0 ++ ']' :: rest) := by
            simp
          rw [hassoc, parseValBody.eq_def]
          try dsimp only
          rw [if_neg (by decide), if_neg (by decide), if_neg (by decide),
            if_neg (by decide), if_pos rfl]
          try dsimp only
          rw [if_neg hne0]
          have hback : c0 :: (cs0 ++ ']' :: rest)
              = JsonArr.stringifyElems (JsonArr.cons v tl) ++ ']' :: rest := by
            rw [hc0]
            rfl
          rw [hback, ih2 _ rest hwa (fun h => JsonArr.noConfusion h)]
      | obj o =>
        cases o with
        | nil =>
          have h0 : Json.stringify (Json.obj JsonObj.nil) = [lbraceChar, rbraceChar] := by
            rw [Json.stringify, JsonObj.stringifyFields]
            simp
          rw [h0]
          show parseValBody (parseElems f) (parseFields f)
            (lbraceChar :: (rbraceChar :: rest)) = _
          rw [parseValBody.eq_def]
          try dsimp only
          rw [if_neg (by decide), if_neg (by decide), if_neg (by decide),
            if_neg (by decide), if_neg (by decide), if_pos rfl]
          try dsimp only
          rw [if_pos rfl]
        | cons k v tl =>
          have h0 : Json.stringify (Json.obj (JsonObj.cons k v tl))
              = lbraceChar :: (JsonObj.stringifyFields (JsonObj.cons k v tl)
                  ++ [rbraceChar]) := by
            rw [Json.stringify]
          have hh : ∃ cs', JsonObj.stringifyFields (JsonObj.cons k v tl) = '"' :: cs' := by
            cases tl <;> rw [JsonObj.stringifyFields] <;> exact ⟨_, rfl⟩
          obtain ⟨cs', hcs'⟩ := hh
          have hwo : JsonObj.weightFields (JsonObj.cons k v tl) ≤ f := by
            rw [Json.weight] at hwv
            omega
          rw [h0, hcs']
          show parseValBody (parseElems f) (parseFields f)
            (lbraceChar :: ((('"' :: cs') ++ [rbraceChar]) ++ rest)) = _
          have hassoc : (('"' :: cs') ++ [rbraceChar]) ++ rest
              = '"' :: (cs' ++ rbraceChar :: rest) := by
            simp
          rw [hassoc, parseValBody.eq_def]
          try dsimp only
          rw [if_neg (by decide), if_neg (by decide), if_neg (by decide),
            if_neg (by decide), if_neg (by decide), if_pos rfl]
          try dsimp only
          rw [if_neg (by decide)]
          have hback : '"' :: (cs' ++ rbraceChar :: rest)
              = JsonObj.stringifyFields (JsonObj.cons k v tl) ++ rbraceChar :: rest := by
            rw [hcs']
            rfl
          rw [hback, ih3 _ rest hwo (fun h => JsonObj.noConfusion h)]
    · intro a rest hw hne
      cases a with
      | nil => exact absurd rfl hne
      | cons v tl =>
        rw [parseElems_succ]
        have hwv : Json.weight v ≤ f := by
          rw [JsonArr.weightElems] at hw
          omega
        cases tl with
        | nil =>
          have h0 : JsonArr.stringifyElems (JsonArr.cons v JsonArr.nil)
              = Json.stringify v := by
            rw [JsonArr.stringifyElems]
          rw [h0]
          unfold parseElemsBody
          rw [ih1 v (']' :: rest) hwv (by rfl)]
          try dsimp only
          rw [if_neg (by decide), if_pos rfl]
        | cons w tl2 =>
          have h0 : JsonArr.stringifyElems (JsonArr.cons v (JsonArr.cons w tl2))
              = Json.stringify v ++ ',' :: JsonArr.stringifyElems (JsonArr.cons w tl2) := by
            rw [JsonArr.stringifyElems]
          rw [h0]
          have hassoc : (Json.stringify v ++ ',' :: JsonArr.stringifyElems
                (JsonArr.cons w tl2)) ++ ']' :: rest
              = Json.stringify v ++ ',' :: (JsonArr.stringifyElems (JsonArr.cons w tl2)
                  ++ ']' :: rest) := by
            simp
          rw [hassoc]
          unfold parseElemsBody
          rw [ih1 v _ hwv (by rfl)]
          try dsimp only
          rw [if_pos rfl]
          have hwtl : JsonArr.weightElems (JsonArr.cons w tl2) ≤ f := by
            rw [JsonArr.weightElems] at hw
            omega
          rw [ih2 _ rest hwtl (fun h => JsonArr.noConfusion h)]
    · intro o rest hw hne
      cases o with
      | nil => exact absurd rfl hne
      | cons k v tl =>
        rw [parseFields_succ]
        have hwv : Json.weight v ≤ f := by
          rw [JsonObj.weightFields] at hw
          omega
        cases tl with
        | nil =>
          have h0 : JsonObj.stringifyFields (JsonObj.cons k v JsonObj.nil)
              = '"' :: (escJsonString k ++ '"' :: ':' :: Json.stringify v) := by
            rw [JsonObj.stringifyFields]
          rw [h0]
          show parseFieldsBody (parseVal f) (parseFields f)
            ('"' :: ((escJsonString k ++ '"' :: ':' :: Json.stringify v)
              ++ rbraceChar :: rest)) = _
          have hassoc : (escJsonString k ++ '"' :: ':' :: Json.stringify v)
                ++ rbraceChar :: rest
              = escJsonString k ++ '"' :: (':' :: (Json.stringify v
                  ++ rbraceChar :: rest)) := by
            simp
          rw [hassoc]
          unfold parseFieldsBody
          try dsimp only
          rw [if_pos rfl, parseStringBody_rt k _]
          try dsimp only
          rw [if_pos rfl, ih1 v _ hwv (by rfl)]
          try dsimp only
          rw [if_neg (by decide), if_pos rfl]
        | cons k2 w tl2 =>
          have h0 : JsonObj.stringifyFields (JsonObj.cons k v (JsonObj.cons k2 w tl2))
              = ('"' :: (escJsonString k ++ '"' :: ':' :: Json.stringify v))
                ++ ',' :: JsonObj.stringifyFields (JsonObj.cons k2 w tl2) := by
            rw [JsonObj.stringifyFields]
          rw [h0]
          show parseFieldsBody (parseVal f) (parseFields f)
            ((('"' :: (escJsonString k ++ '"' :: ':' :: Json.stringify v))
              ++ ',' :: JsonObj.stringifyFields (JsonObj.cons k2 w tl2))
              ++ rbraceChar :: rest) = _
          have hassoc : (('"' :: (escJsonString k ++ '"' :: ':' :: Json.stringify v))
                ++ ',' :: JsonObj.stringifyFields (JsonObj.cons k2 w tl2))
                ++ rbraceChar :: rest
              = '"' :: (escJsonString k ++ '"' :: (':' :: (Json.stringify v
                  ++ ',' :: (JsonObj.stringifyFields (JsonObj.cons k2 w tl2)
                    ++ rbraceChar :: rest)))) := by
            simp
          rw [hassoc]
          unfold parseFieldsBody
          try dsimp only
          rw [if_pos rfl, parseStringBody_rt k _]
          try dsimp only
          rw [if_pos rfl, ih1 v _ hwv (by rfl)]
          try dsimp only
          rw [if_pos rfl]
          have hwtl : JsonObj.weightFields (JsonObj.cons k2 w tl2) ≤ f := by
            rw [JsonObj.weightFields] at hw
            omega
          rw [ih3 _ rest hwtl (fun h => JsonObj.noConfusion h)]

theorem stringify_ne_nil (v : Json) : Json.stringify v ≠ [] := by
  obtain ⟨c, cs, h, _⟩ := stringify_head_ne_rsq v
  rw [h]
  simp

theorem parseJson_stringify (v : Json) : parseJson (Json.stringify v) = some v := by
  have hw : Json.weight v ≤ (Json.stringify v).length + 1 :=
    le_trans (json_weight_le_len v) (Nat.le_succ _)
  have h := (parse_rt ((Json.stringify v).length + 1)).1 v [] hw trivial
  rw [List.append_nil] at h
  unfold parseJson
  rw [h]

/-- **C10.** A `storage.get` of a key after a successful `storage.set` of that
key returns the stored value — the set/get round trip through
`JSON.stringify`/`JSON.parse` is the identity on JSON values; and when the key
has no stored item, or reading throws, or parsing the stored item throws,
`storage.get` returns the supplied default value. -/
theorem storage_set_get_roundtrip :
    (∀ (st : List (String × String)) (k : String) (v : Json) (d : Json),
      storage.get (storage.set st k v false).1 k d = v
      ∧ (storage.set st k v false).2 = true)
    ∧ (∀ (st : List (String × String)) (k : String) (d : Json),
        lsGetItem st k = none → storage.get st k d = d)
    ∧ (∀ d : Json, storage.getFromRead (Except.error ()) d = d)
    ∧ (∀ (item : String) (d : Json), item ≠ "" → parseJson item.data = none →
        storage.getFromRead (Except.ok (some item)) d = d) := by
  refine ⟨?_, ?_, ?_, ?_⟩
  · intro st k v d
    refine ⟨?_, rfl⟩
    have hget : lsGetItem (storage.set st k v false).1 k
        = some (⟨Json.stringify v⟩ : String) := by
      show lsGetItem ((k, (⟨Json.stringify v⟩ : String)) :: st) k = _
      unfold lsGetItem
      rw [List.find?_cons_of_pos _ (by simp)]
      rfl
    unfold storage.get
    rw [hget]
    unfold storage.getFromRead
    dsimp only
    rw [if_neg (by
      intro hc
      exact stringify_ne_nil v (by
        have := congrArg String.data hc
        simpa using this))]
    rw [parseJson_stringify v]
  · intro st k d h
    unfold storage.get
    rw [h]
    rfl
  · intro d
    rfl
  · intro item d hne hp
    unfold storage.getFromRead
    dsimp only
    rw [if_neg hne, hp]

/-- Witness for C10: storing the welcome-skip record round-trips, and reading
an absent key yields the default. -/
theorem storage_roundtrip_witness :
    storage.get (storage.set [] ("welcomeSkipped")
        (Json.obj (JsonObj.cons (("expires").data) (Json.num 99) JsonObj.nil)) false).1
      ("welcomeSkipped") Json.null
      = Json.obj (JsonObj.cons (("expires").data) (Json.num 99) JsonObj.nil)
    ∧ storage.get [] ("k") Json.null = Json.null :=
  ⟨(storage_set_get_roundtrip.1 [] ("welcomeSkipped") _ Json.null).1,
   storage_set_get_roundtrip.2.1 [] ("k") Json.null rfl⟩
